import Mathlib

/-!
Verification of the charon translator against its specification.

This file gives a shallow embedding, in Lean, of the parts of the source
relevant to the specified claims:
* the goto-chain contraction micro-pass (src/charon/src/transform/merge_goto_chains.rs),
* the trait impl-expression / predicate translator
  (src/charon/src/bin/charon-driver/translate/translate_predicates.rs),
* the self-clause pruning pass (src/charon/src/transform/remove_unused_self_clause.rs),
and proves (or refutes) the specified properties about them.

The imperative loops of the Rust source are embedded as fueled recursive
functions returning an `Option`: a `none` result means the corresponding Rust
loop has not finished (it either diverges or panics), and `some b` means the
loop finished normally producing `b`.  Termination of the Rust code is then
expressed as: there is a fuel for which the embedding returns `some`.
-/

namespace Charon

/-! ## ULLBC bodies (src/charon/src/ast/ullbc_ast.rs)

Statements are opaque tokens: the goto-chain pass only moves them around and
never inspects them.  The payloads of terminators that the pass never inspects
(operands, places, calls, scalar values, integer types, source spans) are also
modelled as opaque `Nat` tokens. -/

abbrev Statement := Nat

/-- SwitchTargets from ullbc_ast.rs: either an if (then/else blocks) or an
integer switch (branch list plus otherwise block). -/
inductive SwitchTargets where
  | ifTargets (thenBlock elseBlock : Nat)
  | switchInt (intTy : Nat) (branches : List (Nat × Nat)) (otherwise : Nat)
deriving DecidableEq

/-- RawTerminator from ullbc_ast.rs. -/
inductive RawTerminator where
  | goto (target : Nat)
  | switch (discr : Nat) (targets : SwitchTargets)
  | panicTerm
  | ret
  | unreachable
  | drop (place : Nat) (target : Nat)
  | call (callData : Nat) (target : Nat)
  | assert (cond : Nat) (expected : Bool) (target : Nat)
deriving DecidableEq

/-- A terminator together with its metadata token. -/
structure Terminator where
  meta : Nat
  content : RawTerminator
deriving DecidableEq

/-- A basic block: statements plus one terminator. -/
structure BlockData where
  statements : List Statement
  terminator : Terminator
deriving DecidableEq

/-- Modelled from the spec: the successor block ids of a terminator
(ullbc_ast_utils.rs, which provides BlockData::targets, is not part of the
sampled sources; section 4.4 of the spec describes the antecedent count as the
number of direct predecessors through jump-terminator edges). -/
def RawTerminator.targets : RawTerminator → List Nat
  | .goto t => [t]
  | .switch _ (.ifTargets a b) => [a, b]
  | .switch _ (.switchInt _ brs o) => brs.map Prod.snd ++ [o]
  | .panicTerm => []
  | .ret => []
  | .unreachable => []
  | .drop _ t => [t]
  | .call _ t => [t]
  | .assert _ _ t => [t]

def BlockData.targets (b : BlockData) : List Nat := b.terminator.content.targets

/-- Modelled from the spec: the block store is the id-indexed vector
(crate::ids::Vector, not among the sampled sources); per section 3 of the spec
blocks are removed in place and the ids of removed blocks are never reused, so
a body is a list of slots, a removed block leaving an empty slot behind. -/
abbrev Body := List (Option BlockData)

def getBlock (body : Body) (i : Nat) : Option BlockData := (body.getD i none)

/-- Number of present (non-removed) blocks of a body. -/
def blockCount (body : Body) : Nat := body.countP (fun ob => ob.isSome)

/-- Section 3 well-formedness: every terminator target names an existing
block. -/
def wellFormedBody (body : Body) : Bool :=
  body.all fun ob =>
    match ob with
    | none => true
    | some blk => blk.targets.all fun t => (getBlock body t).isSome

/-! ## Goto-chain contraction (src/charon/src/transform/merge_goto_chains.rs) -/

/-- Set of antecedents of a given block, as in merge_goto_chains.rs: we only
care about block ids if there is a single antecedent. -/
inductive Antecedents where
  | zero
  | one (id : Nat)
  | many
deriving DecidableEq

/-- Antecedents::add. -/
def Antecedents.add : Antecedents → Nat → Antecedents
  | .zero, id => .one id
  | .one _, _ => .many
  | .many, _ => .many

def Antecedents.isOne : Antecedents → Bool
  | .one _ => true
  | _ => false

/-- The antecedents vector has the same slot shape as the body (map_ref
preserves empty slots). Adding an antecedent for a target whose slot is absent
is a no-op here (the Rust code would panic on such a malformed body; the
spec's section 3 invariant rules it out: every terminator target names an
existing block). -/
def addAntecedent (ants : List (Option Antecedents)) (target : Nat) (blockId : Nat) :
    List (Option Antecedents) :=
  match ants.getD target none with
  | none => ants
  | some a => ants.set target (some (a.add blockId))

/-- Iteration over the indexed present blocks (iter_indexed), in index order,
adding each block as an antecedent of each of its targets.  `i` is the index
of the first block of `blocks`. -/
def computeAntecedentsFrom (i : Nat) (blocks : Body) (ants : List (Option Antecedents)) :
    List (Option Antecedents) :=
  match blocks with
  | [] => ants
  | none :: rest => computeAntecedentsFrom (i + 1) rest ants
  | some blk :: rest =>
      computeAntecedentsFrom (i + 1) rest
        (blk.targets.foldl (fun a t => addAntecedent a t i) ants)

def computeAntecedents (body : Body) : List (Option Antecedents) :=
  computeAntecedentsFrom 0 body (body.map (Option.map fun _ => Antecedents.zero))

/-- The list of predecessors of block `x` (with multiplicity, in block-id
order), used to characterize the computed antecedents.  `i` is the index of
the first block of `blocks`. -/
def predListFrom (i : Nat) (blocks : Body) (x : Nat) : List Nat :=
  match blocks with
  | [] => []
  | none :: rest => predListFrom (i + 1) rest x
  | some blk :: rest =>
      List.replicate (blk.targets.count x) i ++ predListFrom (i + 1) rest x

def predList (body : Body) (x : Nat) : List Nat := predListFrom 0 body x

/-- Number of predecessor edges into block `x`. -/
def predCount (body : Body) (x : Nat) : Nat := (predList body x).length

/-- Reading the antecedents vector.  A present slot yields its value; an empty
or out-of-range slot yields `zero` (the Rust indexing would panic there, but
such reads only happen on malformed or already-contracted bodies; treating
them as chain stoppers is the total reading of the spec's contract). -/
def antAt (ants : List (Option Antecedents)) (i : Nat) : Antecedents :=
  (ants.getD i none).getD .zero

/-- The backward walk of transform_body: go up the single-antecedent chain to
find the first block with zero or multiple antecedents.  Fueled: `none` means
the Rust while-loop is still running after `fuel` iterations. -/
def chase (ants : List (Option Antecedents)) : Nat → Nat → Option Nat
  | 0, _ => none
  | fuel + 1, id =>
    match antAt ants id with
    | .one a => chase ants fuel a
    | _ => some id

/-- The merge loop of transform_body: while the current block is a straight
goto to a singly-referenced target, remove the target block and fold its
statements and terminator into the current block.  `none` models a Rust panic
(removing an absent block, or removing the current block itself) or running
out of fuel; since every iteration removes one block, fuel `body.length + 1`
always suffices for normal completion. -/
def mergeLoop (ants : List (Option Antecedents)) :
    Nat → Body → Nat → Option Body
  | 0, _, _ => none
  | fuel + 1, body, id =>
    match getBlock body id with
    | none => some body
    | some source =>
      match source.terminator.content with
      | .goto target =>
        if (antAt ants target).isOne then
          match getBlock body target with
          | none => none
          | some tgt =>
            if target = id then none
            else
              let merged : BlockData :=
                { statements := source.statements ++ tgt.statements
                  terminator := tgt.terminator }
              mergeLoop ants fuel ((body.set target none).set id (some merged)) id
        else some body
      | _ => some body

/-- The main loop of transform_body over all block ids (all_indices iterates
every slot of the vector): walk up the chain from each id, then run the merge
loop at the chain head. -/
def processIds (ants : List (Option Antecedents)) (fuel : Nat) :
    List Nat → Body → Option Body
  | [], body => some body
  | id :: rest, body =>
    match chase ants fuel id with
    | none => none
    | some head =>
      match mergeLoop ants fuel body head with
      | none => none
      | some body2 => processIds ants fuel rest body2

/-- Transform::transform_body for merge_goto_chains, without the option check:
compute the antecedents of every block, then merge chains starting from every
block id. -/
def mergeGotoChains (fuel : Nat) (body : Body) : Option Body :=
  processIds (computeAntecedents body) fuel (List.range body.length) body

/-- Transform::transform_body including the no_merge_goto_chains option check. -/
def transformBody (noMergeGotoChains : Bool) (fuel : Nat) (body : Body) : Option Body :=
  if noMergeGotoChains then some body else mergeGotoChains fuel body

/-- The pure linear chain bodies of the specification: blocks B0, ..., Bn laid
out in order, each Bi (i < n) ending in an unconditional goto to B(i+1), Bn
being the given last block.  `i` is the id of the first block. -/
def chainBlocks : Nat → List (List Statement × Nat) → BlockData → Body
  | _, [], last => [some last]
  | i, (ss, m) :: rest, last =>
      some ⟨ss, ⟨m, .goto (i + 1)⟩⟩ :: chainBlocks (i + 1) rest last

def gotoBlock (m t : Nat) : BlockData := ⟨[], ⟨m, .goto t⟩⟩

def returnBlock (m : Nat) : BlockData := ⟨[], ⟨m, .ret⟩⟩

/-- The body B0{goto B1}, B1{goto B0}: well formed (every target names an
existing block, every block is reachable from the entry) and every block has
exactly one predecessor. -/
def onePredCycleBody : Body := [some (gotoBlock 0 1), some (gotoBlock 1 0)]

/-- The body B0{goto B1}, B1{goto B2}, B2{return} of scenario A. -/
def chainBody3 : Body := chainBlocks 0 [([], 0), ([], 1)] (returnBlock 2)

/-! ## Infrastructure for the idempotence proof of goto-chain contraction -/

/-- Contribution of one block slot to the predecessor count of block x. -/
def contribOf (ob : Option BlockData) (x : Nat) : Nat :=
  match ob with
  | none => 0
  | some b => b.targets.count x

/-- One backward step in the single-antecedent graph: the unique antecedent,
when there is exactly one. -/
def oneStep (ants : List (Option Antecedents)) (x : Nat) : Option Nat :=
  match antAt ants x with
  | .one p => some p
  | _ => none

/-- k backward steps in the single-antecedent graph. -/
def oneIter (ants : List (Option Antecedents)) : Nat → Nat → Option Nat
  | 0, x => some x
  | k + 1, x => (oneStep ants x).bind (oneIter ants k)

/-- Slot s of body b holds an edge to block x. -/
def edgeIn (b : Body) (s x : Nat) : Prop :=
  ∃ blk, getBlock b s = some blk ∧ x ∈ blk.targets

/-- Every edge of the current body comes from an edge of the original body
whose holder has been merged (along original single-antecedent steps) into
the slot currently holding it. -/
def EdgeInv (ants : List (Option Antecedents)) (body0 b : Body) : Prop :=
  ∀ s x, edgeIn b s x → ∃ s0 k, edgeIn body0 s0 x ∧ oneIter ants k s0 = some s

/-- The invariant the merge loops of the contraction pass maintain, relative
to the original body: same slot count; present slots keep their predecessor
counts and were present originally; removed slots were removed originally or
had exactly one predecessor; and edges are inherited along merge chains. -/
def ContractionInv (body0 b : Body) : Prop :=
  b.length = body0.length
  ∧ (∀ j, getBlock b j ≠ none →
      getBlock body0 j ≠ none ∧ predCount b j = predCount body0 j)
  ∧ (∀ j, getBlock b j = none → getBlock body0 j = none ∨ predCount body0 j = 1)
  ∧ EdgeInv (computeAntecedents body0) body0 b

/-- The merge loop at head h has nothing left to do: h does not hold a
straight goto to a singly-referenced block. -/
def StoppedAt (ants : List (Option Antecedents)) (b : Body) (h : Nat) : Prop :=
  ∀ src t, getBlock b h = some src → src.terminator.content = .goto t →
    (antAt ants t).isOne = false

/-! ## Trait references and the impl-expression translator
(src/charon/src/ast/types.rs,
src/charon/src/bin/charon-driver/translate/translate_predicates.rs)

Trait declaration ids, trait impl ids, generic argument lists, types, regions,
spans and poly-trait-decl-ref values are opaque Nat tokens here: the
translator threads them around without inspecting them.  The registration of
def-ids (register_trait_decl_id, register_trait_impl_id) is modelled by a
function parameter `reg` from def-id tokens to declaration-id tokens. -/

/-- TraitRefKind from types.rs. -/
inductive TraitRefKind where
  | traitImpl (implId : Nat) (generics : Nat)
  | clause (id : Nat)
  | parentClause (inner : TraitRefKind) (traitDeclId : Nat) (clauseId : Nat)
  | itemClause (inner : TraitRefKind) (traitDeclId : Nat) (itemName : String)
      (clauseId : Nat)
  | selfId
  | builtinOrAuto (traitRef : Nat)
  | dyn (traitRef : Nat)
  | unknown (msg : String)
deriving DecidableEq

/-- TraitRef from types.rs: the kind plus the (redundant) poly trait decl
ref. -/
structure TraitRef where
  kind : TraitRefKind
  trait_decl_ref : Nat
deriving DecidableEq

/-- hax ImplExprPathChunk: an associated-item step or a parent step.  Each
step carries the def-id of the trait of its `predicate` field (the
declaration owning the clause the step lands on) and the clause index;
associated-item steps also carry the item name and the item's extra generic
arguments. -/
inductive ImplExprPathChunk where
  | assocItem (itemName : String) (genericArgs : List Nat) (predTraitDefId : Nat)
      (index : Nat)
  | parent (predTraitDefId : Nat) (index : Nat)
deriving DecidableEq

/-- hax ImplExprAtom.  For SelfImpl and LocalBound, `traitDefId` is the def-id
of the trait of the witness's `trait` field. -/
inductive ImplExprAtom where
  | concrete (implDefId : Nat) (generics : Nat)
  | selfImpl (traitDefId : Nat) (path : List ImplExprPathChunk)
  | localBound (index : Nat) (traitDefId : Nat) (path : List ImplExprPathChunk)
  | dyn
  | builtin
  | error (msg : String)
deriving DecidableEq

/-- hax ImplExpr: the atom, the number of nested argument witnesses
(impl_source.args), and the token of its `trait` binder (used by
translate_trait_decl_ref, modelled as a total translation). -/
structure ImplExpr where
  atom : ImplExprAtom
  nestedCount : Nat
  binderTrait : Nat
deriving DecidableEq

/-- The translation-context state these functions observe: the two
configuration flags and the recorded span-tagged diagnostics. -/
structure TransCtx where
  continue_on_failure : Bool
  error_on_impl_expr_error : Bool
  errors : List (Nat × String)
deriving DecidableEq

/-- span_err: record one span-tagged diagnostic. -/
def TransCtx.spanErr (ctx : TransCtx) (span : Nat) (msg : String) : TransCtx :=
  { ctx with errors := ctx.errors ++ [(span, msg)] }

/-- Outcome of a fallible translator call: Ok, a recoverable Err, or a Rust
panic (abort of the whole translation). -/
inductive Outcome (A : Type) where
  | ok (val : A)
  | err (msg : String)
  | panicked (msg : String)
deriving DecidableEq

def Outcome.isErr {A : Type} : Outcome A → Bool
  | .err _ => true
  | _ => false

/-- Modelled from the spec: the error_or_panic macro (crate::errors is not
among the sampled sources).  Per section 7, under recovery the error is
downgraded to a span-tagged diagnostic plus an Err result; with recovery
disabled, translation aborts immediately. -/
def errorOrPanic (ctx : TransCtx) (span : Nat) (msg : String) :
    Outcome Unit × TransCtx :=
  if ctx.continue_on_failure then (.err msg, ctx.spanErr span msg)
  else (.panicked msg, ctx)

/-- The path walk of translate_trait_impl_expr_aux: consume the resolution
path left to right, starting from the root kind and the initial current trait
declaration.  An associated-item chunk with non-empty generic arguments is
rejected as an unsupported GAT. -/
def applyPath (reg : Nat → Nat) (ctx : TransCtx) (span : Nat) :
    TraitRefKind → Nat → List ImplExprPathChunk → Outcome TraitRefKind × TransCtx
  | cur, _, [] => (.ok cur, ctx)
  | cur, curDecl, chunk :: rest =>
    match chunk with
    | .assocItem item gargs predId idx =>
      if gargs.isEmpty then
        applyPath reg ctx span (.itemClause cur curDecl item idx) (reg predId) rest
      else
        match errorOrPanic ctx span "Found unsupported GAT when resolving trait" with
        | (.ok _, ctx2) => (.err "unreachable", ctx2)
        | (.err m, ctx2) => (.err m, ctx2)
        | (.panicked m, ctx2) => (.panicked m, ctx2)
    | .parent predId idx =>
        applyPath reg ctx span (.parentClause cur curDecl idx) (reg predId) rest

/-- translate_trait_impl_expr_aux.  Generic-argument translation for concrete
impls is modelled as total (failures of nested sub-witnesses are caught at the
nested recovery boundaries of translate_trait_impl_expr). -/
def translate_trait_impl_expr_aux (reg : Nat → Nat) (ctx : TransCtx) (span : Nat)
    (ie : ImplExpr) (trait_decl_ref : Nat) : Outcome TraitRef × TransCtx :=
  match ie.atom with
  | .concrete implDefId generics =>
    (.ok ⟨.traitImpl (reg implDefId) generics, trait_decl_ref⟩, ctx)
  | .selfImpl traitDefId path =>
    if ie.nestedCount ≠ 0 then (.panicked "assertion failed: nested.is_empty()", ctx)
    else
      match applyPath reg ctx span .selfId (reg traitDefId) path with
      | (.ok kind, ctx2) => (.ok ⟨kind, trait_decl_ref⟩, ctx2)
      | (.err m, ctx2) => (.err m, ctx2)
      | (.panicked m, ctx2) => (.panicked m, ctx2)
  | .localBound index traitDefId path =>
    if ie.nestedCount ≠ 0 then (.panicked "assertion failed: nested.is_empty()", ctx)
    else
      match applyPath reg ctx span (.clause index) (reg traitDefId) path with
      | (.ok kind, ctx2) => (.ok ⟨kind, trait_decl_ref⟩, ctx2)
      | (.err m, ctx2) => (.err m, ctx2)
      | (.panicked m, ctx2) => (.panicked m, ctx2)
  | .dyn => (.ok ⟨.dyn trait_decl_ref, trait_decl_ref⟩, ctx)
  | .builtin => (.ok ⟨.builtinOrAuto trait_decl_ref, trait_decl_ref⟩, ctx)
  | .error msg =>
    if ctx.error_on_impl_expr_error then
      let emsg := "Error during trait resolution: " ++ msg
      let ctx2 := ctx.spanErr span emsg
      if ctx.continue_on_failure then (.ok ⟨.unknown msg, trait_decl_ref⟩, ctx2)
      else (.panicked emsg, ctx2)
    else (.ok ⟨.unknown msg, trait_decl_ref⟩, ctx)

/-- translate_trait_impl_expr: translate the poly trait decl ref (modelled as
the total token ie.binderTrait), run the aux translation, and catch its Err
at this recovery boundary. -/
def translate_trait_impl_expr (reg : Nat → Nat) (ctx : TransCtx) (span : Nat)
    (ie : ImplExpr) : Outcome TraitRef × TransCtx :=
  let trait_decl_ref := ie.binderTrait
  match translate_trait_impl_expr_aux reg ctx span ie trait_decl_ref with
  | (.ok r, ctx2) => (.ok r, ctx2)
  | (.panicked m, ctx2) => (.panicked m, ctx2)
  | (.err m, ctx2) =>
    if !ctx.continue_on_failure then
      (.panicked ("Error during trait resolution: " ++ m), ctx2)
    else
      (.ok ⟨.unknown m, trait_decl_ref⟩,
        ctx2.spanErr span ("Error during trait resolution: " ++ m))

/-- The step described by the specification (section 4.3), word for word: an
associated-item path element wraps the current kind in ItemClause with the
current trait declaration, the item name and the clause index, and advances
the current trait declaration to the declaration owning the consumed clause
(the trait of the element's predicate); a parent element wraps the current
kind in ParentClause and advances likewise. -/
def specPathStep (reg : Nat → Nat) (st : TraitRefKind × Nat)
    (chunk : ImplExprPathChunk) : TraitRefKind × Nat :=
  match chunk with
  | .assocItem item _ predId idx => (.itemClause st.1 st.2 item idx, reg predId)
  | .parent predId idx => (.parentClause st.1 st.2 idx, reg predId)

/-- A path chunk with no extra generic arguments (non-GAT). -/
def noExtraGenerics : ImplExprPathChunk → Bool
  | .assocItem _ gargs _ _ => gargs.isEmpty
  | .parent _ _ => true

/-! ## Predicate registration (translate_predicates.rs) -/

/-- hax ClauseKind, with payloads as tokens. -/
inductive ClauseKind where
  | traitClause (pred : Nat)
  | regionOutlives (lhs rhs : Nat)
  | typeOutlives (lhs rhs : Nat)
  | projection (implExpr : ImplExpr) (itemName : String) (ty : Nat)
  | constArgHasType (cg ty : Nat)
  | wellFormed (arg : Nat)
  | constEvaluatable (c : Nat)
deriving DecidableEq

/-- hax PredicateKind. -/
inductive PredicateKind where
  | clause (kind : ClauseKind)
  | aliasRelate (a b : Nat)
  | ambiguous
  | coerce (c : Nat)
  | constEquate (a b : Nat)
  | dynCompatible (t : Nat)
  | normalizesTo (p : Nat)
  | subtype (s : Nat)
deriving DecidableEq

/-- hax Predicate: the (region-binder-wrapped) kind plus the binder token. -/
structure Predicate where
  kind : PredicateKind
  binderRegions : Nat
deriving DecidableEq

/-- PredicateLocation from translate_traits.rs: which clause list the
translated clause is pushed to. -/
inductive PredicateLocation where
  | base
  | parent
  | item (name : String)
deriving DecidableEq

/-- The registration state: context flags and diagnostics, the three clause
lists selected by PredicateLocation, and the non-clause constraint lists of
GenericParams.  Entries are the registered predicates, in registration
order (clause ids are positions). -/
structure PredState where
  tctx : TransCtx
  trait_clauses : List Predicate
  parent_trait_clauses : List Predicate
  item_trait_clauses : List (String × Predicate)
  regions_outlive : List Predicate
  types_outlive : List Predicate
  trait_type_constraints : List Predicate
deriving DecidableEq

/-- register_predicate: translate one predicate and register it, or produce a
translation error for the unsupported kinds. -/
def register_predicate (reg : Nat → Nat) (st : PredState) (pred : Predicate)
    (span : Nat) (location : PredicateLocation) : Outcome Unit × PredState :=
  match pred.kind with
  | .clause (.traitClause _) =>
    match location with
    | .base => (.ok (), { st with trait_clauses := st.trait_clauses ++ [pred] })
    | .parent =>
      (.ok (), { st with parent_trait_clauses := st.parent_trait_clauses ++ [pred] })
    | .item name =>
      (.ok (), { st with item_trait_clauses := st.item_trait_clauses ++ [(name, pred)] })
  | .clause (.regionOutlives _ _) =>
    (.ok (), { st with regions_outlive := st.regions_outlive ++ [pred] })
  | .clause (.typeOutlives _ _) =>
    (.ok (), { st with types_outlive := st.types_outlive ++ [pred] })
  | .clause (.projection ie _ _) =>
    match translate_trait_impl_expr reg st.tctx span ie with
    | (.ok _, ctx2) =>
      (.ok (),
        { st with
          tctx := ctx2
          trait_type_constraints := st.trait_type_constraints ++ [pred] })
    | (.err m, ctx2) => (.err m, { st with tctx := ctx2 })
    | (.panicked m, ctx2) => (.panicked m, { st with tctx := ctx2 })
  | .clause (.constArgHasType _ _) => (.ok (), st)
  | .clause (.wellFormed _) =>
    match errorOrPanic st.tctx span "Well-formedness clauses are unsupported" with
    | (.ok _, ctx2) => (.err "unreachable", { st with tctx := ctx2 })
    | (.err m, ctx2) => (.err m, { st with tctx := ctx2 })
    | (.panicked m, ctx2) => (.panicked m, { st with tctx := ctx2 })
  | .clause (.constEvaluatable _) =>
    match errorOrPanic st.tctx span "Unsupported clause" with
    | (.ok _, ctx2) => (.err "unreachable", { st with tctx := ctx2 })
    | (.err m, ctx2) => (.err m, { st with tctx := ctx2 })
    | (.panicked m, ctx2) => (.panicked m, { st with tctx := ctx2 })
  | _ =>
    match errorOrPanic st.tctx span "Unsupported predicate" with
    | (.ok _, ctx2) => (.err "unreachable", { st with tctx := ctx2 })
    | (.err m, ctx2) => (.err m, { st with tctx := ctx2 })
    | (.panicked m, ctx2) => (.panicked m, { st with tctx := ctx2 })

/-- Is the predicate a trait obligation (the filter of the two loops of
register_predicates)? -/
def isTraitPred (p : Predicate) : Bool :=
  match p.kind with
  | .clause (.traitClause _) => true
  | _ => false

/-- One loop of register_predicates: iterate the predicate list in order,
registering exactly those selected by `keep`, propagating the first error. -/
def registerFiltered (reg : Nat → Nat) (keep : Predicate → Bool) :
    List (Predicate × Nat) → PredState → PredicateLocation → Outcome Unit × PredState
  | [], st, _ => (.ok (), st)
  | (p, span) :: rest, st, loc =>
    if keep p then
      match register_predicate reg st p span loc with
      | (.ok _, st2) => registerFiltered reg keep rest st2 loc
      | (.err m, st2) => (.err m, st2)
      | (.panicked m, st2) => (.panicked m, st2)
    else registerFiltered reg keep rest st loc

/-- register_predicates: first register every trait predicate, in input
order, then every other predicate, in input order. -/
def register_predicates (reg : Nat → Nat) (preds : List (Predicate × Nat))
    (st : PredState) (loc : PredicateLocation) : Outcome Unit × PredState :=
  match registerFiltered reg isTraitPred preds st loc with
  | (.ok _, st2) => registerFiltered reg (fun p => !(isTraitPred p)) preds st2 loc
  | (.err m, st2) => (.err m, st2)
  | (.panicked m, st2) => (.panicked m, st2)

/-- Sequential registration of a list of predicates, in order (the
specification's description of the two-pass scheme as one pass over the
reordered list). -/
def registerSeq (reg : Nat → Nat) :
    List (Predicate × Nat) → PredState → PredicateLocation → Outcome Unit × PredState
  | [], st, _ => (.ok (), st)
  | (p, span) :: rest, st, loc =>
    match register_predicate reg st p span loc with
    | (.ok _, st2) => registerSeq reg rest st2 loc
    | (.err m, st2) => (.err m, st2)
    | (.panicked m, st2) => (.panicked m, st2)

/-- The obligation kinds rejected by register_predicate. -/
def isUnsupportedPredicate : PredicateKind → Bool
  | .clause (.wellFormed _) => true
  | .clause (.constEvaluatable _) => true
  | .aliasRelate _ _ => true
  | .ambiguous => true
  | .coerce _ => true
  | .constEquate _ _ => true
  | .dynCompatible _ => true
  | .normalizesTo _ => true
  | .subtype _ => true
  | _ => false

/-- The error message register_predicate produces for each unsupported
kind. -/
def unsupportedMsg : PredicateKind → String
  | .clause (.wellFormed _) => "Well-formedness clauses are unsupported"
  | .clause (.constEvaluatable _) => "Unsupported clause"
  | _ => "Unsupported predicate"

/-! ## Self-clause pruning (src/charon/src/transform/remove_unused_self_clause.rs)

The visitor traversals (derive_generic_visitor) are modelled by explicit
occurrence lists: an item carries its declared trait-clause list, the list of
every TraitClauseId occurrence in it outside clause declarations (the
UsesClauseVisitor view, which skips the inside of TraitClause declarations),
and the generic-argument sites it contains.  Witness entries of a
generic-argument list are opaque tokens. -/

/-- AnyTransId, restricted to the kinds this pass inserts into its set. -/
inductive AnyTransId where
  | fnId (n : Nat)
  | globalId (n : Nat)
deriving DecidableEq

/-- A declared trait clause: its clause_id field and the predicate token. -/
structure TraitClauseM where
  clause_id : Nat
  trait_pred : Nat
deriving DecidableEq

/-- A generic-argument list: its target (some id when the target is
GenericsSource::Item(id)) and its trait-reference witness slots. -/
structure GenericArgsM where
  target : Option AnyTransId
  trait_refs : List Nat
deriving DecidableEq

/-- The per-item content the pass reads and rewrites. -/
structure ItemM where
  trait_clauses : List TraitClauseM
  clauseRefs : List Nat
  argsSites : List GenericArgsM
deriving DecidableEq

/-- A function declaration: its id, whether a body is available (x.body is
Ok rather than Err(Opaque)), the global it initializes if any, and its
content. -/
structure FunDeclM where
  def_id : Nat
  hasBody : Bool
  is_global_initializer : Option Nat
  item : ItemM
deriving DecidableEq

/-- A global declaration: its id, its initializer function and its content. -/
structure GlobalDeclM where
  def_id : Nat
  init : Nat
  item : ItemM
deriving DecidableEq

/-- A trait declaration: the ids of its methods' functions and of its
associated-const default globals. -/
structure TraitDeclM where
  methodFunIds : List Nat
  constDefaultGlobalIds : List Nat
deriving DecidableEq

/-- The translated crate as seen by this pass. -/
structure CrateM where
  trait_decls : List TraitDeclM
  fun_decls : List FunDeclM
  global_decls : List GlobalDeclM
deriving DecidableEq

def lookupFun (crate : CrateM) (fid : Nat) : Option FunDeclM :=
  crate.fun_decls.find? (fun f => f.def_id == fid)

def lookupGlobal (crate : CrateM) (gid : Nat) : Option GlobalDeclM :=
  crate.global_decls.find? (fun g => g.def_id == gid)

def itemOf (crate : CrateM) (id : AnyTransId) : Option ItemM :=
  match id with
  | .fnId n => (lookupFun crate n).map (fun f => f.item)
  | .globalId n => (lookupGlobal crate n).map (fun g => g.item)

/-- UsesClauseVisitor on a function declaration: a function without a body is
conservatively treated as using the clause; otherwise the clause is used iff
clause id 0 occurs in the function (outside clause declarations). -/
def usesSelfClause (f : FunDeclM) : Bool :=
  if !f.hasBody then true
  else f.item.clauseRefs.contains 0

/-- The first loop of transform_ctx: for every trait declaration, for each
method function and each associated-const default's initializer function that
exists in the crate, if the function does not use clause 0, add its id — and
the id of the global it initializes, if any — to the prune set. -/
def pruneSet (crate : CrateM) : List AnyTransId :=
  crate.trait_decls.flatMap fun td =>
    (td.methodFunIds
        ++ td.constDefaultGlobalIds.filterMap
            (fun gid => (lookupGlobal crate gid).map (fun g => g.init))).flatMap
      fun fid =>
        match lookupFun crate fid with
        | none => []
        | some f =>
          if usesSelfClause f then []
          else
            .fnId f.def_id ::
              (match f.is_global_initializer with
               | none => []
               | some gid => [.globalId gid])

/-- The unchecked decrement TraitClauseId::from_usize(clause_id.index() - 1):
`none` models the underflow panic on clause id 0. -/
def decClauseId (n : Nat) : Option Nat := if n = 0 then none else some (n - 1)

/-- mapM over Option, written recursively. -/
def optionMapM {A B : Type} (f : A → Option B) : List A → Option (List B)
  | [] => some []
  | a :: l => do
    let b ← f a
    let bs ← optionMapM f l
    pure (b :: bs)

/-- The second sweep, on one pruned item: remove clause 0 from the declared
clause list, shifting the stored clauses down (remove_and_shift_ids on a
dense id-indexed vector removes the slot with id 0; modelled from the spec,
ids/vector.rs not being among the sampled sources), then rewrite every
TraitClauseId occurrence in the item — the clause_id fields of the remaining
declarations and every reference — by the unchecked decrement. -/
def pruneItem (it : ItemM) : Option ItemM := do
  let newClauses ← optionMapM
    (fun c => (decClauseId c.clause_id).map (fun nid => { c with clause_id := nid }))
    (it.trait_clauses.drop 1)
  let newRefs ← optionMapM decClauseId it.clauseRefs
  pure { it with trait_clauses := newClauses, clauseRefs := newRefs }

/-- The third sweep, on one generic-argument list: if its target is an item
of the prune set, remove witness slot 0, shifting the rest down. -/
def pruneSite (s : List AnyTransId) (site : GenericArgsM) : GenericArgsM :=
  match site.target with
  | some tid =>
    if s.contains tid then { site with trait_refs := site.trait_refs.drop 1 }
    else site
  | none => site

def pruneSitesOfItem (s : List AnyTransId) (it : ItemM) : ItemM :=
  { it with argsSites := it.argsSites.map (pruneSite s) }

/-- Transform::transform_ctx of remove_unused_self_clause: compute the prune
set, remove and renumber the self clause in every item of the set (a `none`
models the decrement panicking), then rewrite every generic-argument list of
the crate whose target is in the set. -/
def remove_unused_self_clause (crate : CrateM) : Option CrateM := do
  let s := pruneSet crate
  let funs ← optionMapM
    (fun f =>
      if s.contains (.fnId f.def_id) then
        (pruneItem f.item).map (fun it => { f with item := it })
      else some f)
    crate.fun_decls
  let globals ← optionMapM
    (fun g =>
      if s.contains (.globalId g.def_id) then
        (pruneItem g.item).map (fun it => { g with item := it })
      else some g)
    crate.global_decls
  pure
    { trait_decls := crate.trait_decls
      fun_decls := funs.map (fun f => { f with item := pruneSitesOfItem s f.item })
      global_decls := globals.map (fun g => { g with item := pruneSitesOfItem s g.item }) }

/-- The total description of pruneItem on an item whose decrements cannot
underflow. -/
def pruneItemTotal (it : ItemM) : ItemM :=
  { it with
    trait_clauses :=
      (it.trait_clauses.drop 1).map (fun c => { c with clause_id := c.clause_id - 1 })
    clauseRefs := it.clauseRefs.map (fun r => r - 1) }

/-- Every generic-argument site of the crate. -/
def allSites (crate : CrateM) : List GenericArgsM :=
  (crate.fun_decls.map (fun f => f.item)
      ++ crate.global_decls.map (fun g => g.item)).flatMap
    (fun it => it.argsSites)

/-- The action of the pass on one function declaration when no decrement
underflows: prune the item if it is in the set, then prune its
generic-argument sites. -/
def pruneFunStep (s : List AnyTransId) (f : FunDeclM) : FunDeclM :=
  if s.contains (.fnId f.def_id) then
    { f with item := pruneSitesOfItem s (pruneItemTotal f.item) }
  else
    { f with item := pruneSitesOfItem s f.item }

def pruneGlobalStep (s : List AnyTransId) (g : GlobalDeclM) : GlobalDeclM :=
  if s.contains (.globalId g.def_id) then
    { g with item := pruneSitesOfItem s (pruneItemTotal g.item) }
  else
    { g with item := pruneSitesOfItem s g.item }

/-- The total description of the whole pass on a crate where no decrement
underflows. -/
def removeSelfClauseTotal (crate : CrateM) : CrateM :=
  { trait_decls := crate.trait_decls
    fun_decls := crate.fun_decls.map (pruneFunStep (pruneSet crate))
    global_decls := crate.global_decls.map (pruneGlobalStep (pruneSet crate)) }

/-- Example crate for the pruning pass: one trait with one method, whose
function has a body, two declared clauses (the Self clause 0 and clause 1)
and one reference to clause 1, plus a generic-argument site targeting the
method with two witness slots. -/
def pruneCrateExample : CrateM :=
  { trait_decls := [⟨[0], []⟩]
    fun_decls := [⟨0, true, none, ⟨[⟨0, 5⟩, ⟨1, 6⟩], [1], [⟨some (.fnId 0), [10, 11]⟩]⟩⟩]
    global_decls := [] }

/-- Example crate with an opaque (bodyless) method. -/
def opaqueCrateExample : CrateM :=
  { trait_decls := [⟨[0], []⟩]
    fun_decls := [⟨0, false, none, ⟨[⟨0, 5⟩], [], []⟩⟩]
    global_decls := [] }

/-! ## Characterization of the computed antecedents -/

theorem getD_some_lt_length {α : Type} {l : List (Option α)} {t : Nat} {a : α}
    (h : l.getD t none = some a) : t < l.length := by
  by_contra hge
  push_neg at hge
  rw [List.getD_eq_getElem?_getD, List.getElem?_eq_none hge] at h
  simp at h

theorem length_addAntecedent (ants : List (Option Antecedents)) (t i : Nat) :
    (addAntecedent ants t i).length = ants.length := by
  unfold addAntecedent
  cases h : ants.getD t none with
  | none => rfl
  | some a => simp

theorem getD_addAntecedent (ants : List (Option Antecedents)) (t i x : Nat) :
    (addAntecedent ants t i).getD x none =
      if t = x then (ants.getD x none).map (fun a => a.add i)
      else ants.getD x none := by
  unfold addAntecedent
  by_cases hx : t = x
  · subst hx
    cases h : ants.getD t none with
    | none =>
      rw [List.getD_eq_getElem?_getD] at h
      simp [h]
    | some a =>
      have hlt : t < ants.length := getD_some_lt_length h
      simp only [if_pos rfl, h, Option.map_some]
      rw [List.getD_eq_getElem?_getD, List.getElem?_set_self hlt]
      rfl
  · cases h : ants.getD t none with
    | none => simp [hx]
    | some a =>
      simp only [if_neg hx]
      rw [List.getD_eq_getElem?_getD, List.getElem?_set_ne hx,
        ← List.getD_eq_getElem?_getD]

theorem getD_foldTargets (ts : List Nat) (ants : List (Option Antecedents)) (i x : Nat) :
    (ts.foldl (fun a t => addAntecedent a t i) ants).getD x none
      = (ants.getD x none).map
          (fun a => (List.replicate (ts.count x) i).foldl Antecedents.add a) := by
  induction ts generalizing ants with
  | nil => simp [List.count_nil]
  | cons t ts ih =>
    rw [List.foldl_cons, ih, getD_addAntecedent]
    by_cases hx : t = x
    · subst hx
      rw [if_pos rfl]
      have hc : (t :: ts).count t = ts.count t + 1 := by
        simp [List.count_cons]
      rw [hc]
      cases ants.getD t none with
      | none => rfl
      | some a => simp [List.replicate_succ]
    · have hc : (t :: ts).count x = ts.count x := by
        simp [List.count_cons, hx]
      rw [if_neg hx, hc]

theorem length_foldTargets (ts : List Nat) (ants : List (Option Antecedents)) (i : Nat) :
    (ts.foldl (fun a t => addAntecedent a t i) ants).length = ants.length := by
  induction ts generalizing ants with
  | nil => rfl
  | cons t ts ih => rw [List.foldl_cons, ih, length_addAntecedent]

theorem getD_computeAntecedentsFrom (bs : Body) (i : Nat)
    (ants : List (Option Antecedents)) (x : Nat) :
    (computeAntecedentsFrom i bs ants).getD x none
      = (ants.getD x none).map
          (fun a => (predListFrom i bs x).foldl Antecedents.add a) := by
  induction bs generalizing i ants with
  | nil => simp [computeAntecedentsFrom, predListFrom]
  | cons ob rest ih =>
    cases ob with
    | none => rw [show computeAntecedentsFrom i (none :: rest) ants
        = computeAntecedentsFrom (i + 1) rest ants from rfl, ih,
        show predListFrom i (none :: rest) x = predListFrom (i + 1) rest x from rfl]
    | some blk =>
      rw [show computeAntecedentsFrom i (some blk :: rest) ants
          = computeAntecedentsFrom (i + 1) rest
              (blk.targets.foldl (fun a t => addAntecedent a t i) ants) from rfl,
        ih, getD_foldTargets,
        show predListFrom i (some blk :: rest) x
          = List.replicate (blk.targets.count x) i ++ predListFrom (i + 1) rest x from rfl]
      cases ants.getD x none <;> simp [List.foldl_append]

theorem length_computeAntecedentsFrom (bs : Body) (i : Nat)
    (ants : List (Option Antecedents)) :
    (computeAntecedentsFrom i bs ants).length = ants.length := by
  induction bs generalizing i ants with
  | nil => rfl
  | cons ob rest ih =>
    cases ob with
    | none => exact ih _ _
    | some blk =>
      rw [show computeAntecedentsFrom i (some blk :: rest) ants
          = computeAntecedentsFrom (i + 1) rest
              (blk.targets.foldl (fun a t => addAntecedent a t i) ants) from rfl,
        ih, length_foldTargets]

theorem length_computeAntecedents (body : Body) :
    (computeAntecedents body).length = body.length := by
  rw [computeAntecedents, length_computeAntecedentsFrom, List.length_map]

theorem foldl_add_many (l : List Nat) : l.foldl Antecedents.add .many = .many := by
  induction l with
  | nil => rfl
  | cons p l ih => rw [List.foldl_cons]; exact ih

theorem foldl_add_zero_spec (l : List Nat) :
    l.foldl Antecedents.add .zero =
      match l with
      | [] => .zero
      | [p] => .one p
      | _ :: _ :: _ => .many := by
  match l with
  | [] => rfl
  | [p] => rfl
  | p :: q :: r =>
    show (r.foldl Antecedents.add .many) = .many
    exact foldl_add_many r

theorem getD_init_map (body : Body) (x : Nat) :
    (body.map (Option.map (fun _ => Antecedents.zero))).getD x none
      = (getBlock body x).map (fun _ => Antecedents.zero) := by
  rw [List.getD_eq_getElem?_getD, List.getElem?_map, getBlock, List.getD_eq_getElem?_getD]
  cases body[x]? with
  | none => rfl
  | some ob => cases ob <;> rfl

/-- Master characterization: the antecedents entry computed for block `x` is
the classification of the predecessor list of `x` when `x` is a present
block, and the chain-stopping default otherwise. -/
theorem antAt_computeAntecedents (body : Body) (x : Nat) :
    antAt (computeAntecedents body) x =
      match getBlock body x with
      | none => .zero
      | some _ =>
        match predList body x with
        | [] => .zero
        | [p] => .one p
        | _ :: _ :: _ => .many := by
  rw [antAt, computeAntecedents, getD_computeAntecedentsFrom, getD_init_map]
  cases hb : getBlock body x with
  | none => rfl
  | some blk =>
    simp only [Option.map_some, Option.getD_some]
    rw [predList] at *
    exact foldl_add_zero_spec _

theorem antAt_eq_one_iff (body : Body) (x p : Nat) :
    antAt (computeAntecedents body) x = .one p
      ↔ (getBlock body x).isSome ∧ predList body x = [p] := by
  rw [antAt_computeAntecedents]
  cases hb : getBlock body x with
  | none => simp
  | some blk =>
    simp only [Option.isSome_some, true_and]
    match hl : predList body x with
    | [] => simp
    | [q] => simp
    | q :: r :: s => simp

theorem isOne_antAt_iff (body : Body) (x : Nat) :
    (antAt (computeAntecedents body) x).isOne = true
      ↔ (getBlock body x).isSome ∧ predCount body x = 1 := by
  rw [antAt_computeAntecedents, predCount]
  cases hb : getBlock body x with
  | none => simp [Antecedents.isOne]
  | some blk =>
    simp only [Option.isSome_some, true_and]
    match hl : predList body x with
    | [] => simp [Antecedents.isOne]
    | [q] => simp [Antecedents.isOne]
    | q :: r :: s => simp [Antecedents.isOne]

theorem mem_predListFrom : ∀ {bs : Body} {i x p : Nat},
    p ∈ predListFrom i bs x → i ≤ p ∧ p < i + bs.length := by
  intro bs
  induction bs with
  | nil => intro i x p h; simp [predListFrom] at h
  | cons ob rest ih =>
    intro i x p h
    cases ob with
    | none =>
      rw [predListFrom] at h
      have h2 := ih h
      refine ⟨by omega, ?_⟩
      simp only [List.length_cons]
      omega
    | some blk =>
      rw [predListFrom, List.mem_append] at h
      cases h with
      | inl hm =>
        have he := List.eq_of_mem_replicate hm
        subst he
        exact ⟨le_refl _, by simp only [List.length_cons]; omega⟩
      | inr hm =>
        have h2 := ih hm
        exact ⟨by omega, by simp only [List.length_cons]; omega⟩

theorem mem_predList_lt {body : Body} {x p : Nat} (h : p ∈ predList body x) :
    p < body.length := by
  have h2 := (mem_predListFrom h).2
  omega

/-! ## Claim C2: termination of the contraction pass -/

theorem chase_onePredCycle (f : Nat) :
    chase (computeAntecedents onePredCycleBody) f 0 = none
    ∧ chase (computeAntecedents onePredCycleBody) f 1 = none := by
  induction f with
  | zero => exact ⟨rfl, rfl⟩
  | succ g ih =>
    refine ⟨?_, ?_⟩
    · have h0 : antAt (computeAntecedents onePredCycleBody) 0 = .one 1 := by decide
      rw [chase, h0]
      exact ih.2
    · have h1 : antAt (computeAntecedents onePredCycleBody) 1 = .one 0 := by decide
      rw [chase, h1]
      exact ih.1

/-- C2.  The claim states that the contraction pass terminates on every finite
well-formed body, including bodies containing goto cycles in which every block
has exactly one predecessor.  This is false of the code: on the well-formed
body B0{goto B1}, B1{goto B0} (every terminator target names an existing
block, both blocks are reachable from the entry, and every block has exactly
one predecessor) the backward single-predecessor walk of transform_body never
leaves the cycle, so the pass diverges: it returns no result at any fuel. -/
theorem c2_contraction_diverges_on_one_pred_cycle :
    wellFormedBody onePredCycleBody = true
    ∧ onePredCycleBody.length = 2
    ∧ predCount onePredCycleBody 0 = 1
    ∧ predCount onePredCycleBody 1 = 1
    ∧ ∀ fuel : Nat, mergeGotoChains fuel onePredCycleBody = none := by
  refine ⟨by decide, by decide, by decide, by decide, ?_⟩
  · intro fuel
    rw [mergeGotoChains]
    have h0 := (chase_onePredCycle fuel).1
    simp only [show (onePredCycleBody : Body).length = 2 from rfl,
      show List.range 2 = [0, 1] from rfl, processIds, h0]

/-! ## Claim C1: contraction of a pure linear chain -/

theorem replicate_append_cons {α : Type} (n : Nat) (a : α) (l : List α) :
    List.replicate n a ++ a :: l = List.replicate (n + 1) a ++ l := by
  rw [List.replicate_succ']
  simp

theorem set_append_length {α : Type} (l1 l2 : List α) (v : α) :
    (l1 ++ l2).set l1.length v = l1 ++ l2.set 0 v := by
  induction l1 with
  | nil => rfl
  | cons x l ih => simp [List.set_cons_succ, ih]

theorem length_chainBlocks (last : BlockData) :
    ∀ (parts : List (List Statement × Nat)) (i : Nat),
      (chainBlocks i parts last).length = parts.length + 1 := by
  intro parts
  induction parts with
  | nil => intro i; rfl
  | cons p rest ih =>
    intro i
    cases p with
    | mk ss m => simp [chainBlocks, ih]

theorem predListFrom_chainBlocks (last : BlockData) (hlast : last.targets = []) :
    ∀ (parts : List (List Statement × Nat)) (i x : Nat),
      predListFrom i (chainBlocks i parts last) x
        = if i + 1 ≤ x ∧ x ≤ i + parts.length then [x - 1] else [] := by
  intro parts
  induction parts with
  | nil =>
    intro i x
    rw [chainBlocks, predListFrom, predListFrom, hlast]
    rw [if_neg (by simp only [List.length_nil]; omega)]
    rfl
  | cons p rest ih =>
    intro i x
    cases p with
    | mk ss m =>
      rw [chainBlocks, predListFrom, ih]
      have htg : (BlockData.mk ss ⟨m, .goto (i + 1)⟩).targets = [i + 1] := rfl
      rw [htg]
      by_cases hx : x = i + 1
      · subst hx
        rw [if_neg (by omega), if_pos (by simp only [List.length_cons]; omega)]
        simp
      · have hc : ([i + 1].count x) = 0 := by
          simp [List.count_singleton]
          omega
        rw [hc]
        simp only [List.replicate_zero, List.nil_append, List.length_cons]
        by_cases hx2 : i + 1 + 1 ≤ x ∧ x ≤ i + 1 + rest.length
        · rw [if_pos hx2, if_pos (by omega)]
        · rw [if_neg hx2, if_neg (by omega)]

theorem getBlock_chainBlocks_isSome (last : BlockData) :
    ∀ (parts : List (List Statement × Nat)) (i x : Nat),
      (getBlock (chainBlocks i parts last) x).isSome = (x ≤ parts.length : Bool) := by
  intro parts
  induction parts with
  | nil =>
    intro i x
    cases x with
    | zero => rfl
    | succ y =>
      rw [chainBlocks, getBlock]
      simp
  | cons p rest ih =>
    intro i x
    cases p with
    | mk ss m =>
      cases x with
      | zero => rfl
      | succ y =>
        rw [chainBlocks]
        show (getBlock (chainBlocks (i + 1) rest last) y).isSome = _
        rw [ih]
        simp

theorem antAt_chainBlocks (last : BlockData) (hlast : last.targets = [])
    (parts : List (List Statement × Nat)) (x : Nat) :
    antAt (computeAntecedents (chainBlocks 0 parts last)) x
      = if 1 ≤ x ∧ x ≤ parts.length then .one (x - 1) else .zero := by
  rw [antAt_computeAntecedents]
  by_cases hx : x ≤ parts.length
  · have hs : (getBlock (chainBlocks 0 parts last) x).isSome = true := by
      rw [getBlock_chainBlocks_isSome]
      simpa using hx
    cases hb : getBlock (chainBlocks 0 parts last) x with
    | none => rw [hb] at hs; simp at hs
    | some blk =>
      simp only []
      have hpl : predList (chainBlocks 0 parts last) x
          = if 0 + 1 ≤ x ∧ x ≤ 0 + parts.length then [x - 1] else [] := by
        rw [predList, predListFrom_chainBlocks last hlast]
      by_cases hx1 : 1 ≤ x
      · rw [if_pos ⟨hx1, hx⟩]
        rw [if_pos (by omega)] at hpl
        rw [hpl]
      · rw [if_neg (by omega)]
        rw [if_neg (by omega)] at hpl
        rw [hpl]
  · have hs : (getBlock (chainBlocks 0 parts last) x).isSome = false := by
      rw [getBlock_chainBlocks_isSome]
      simpa using hx
    cases hb : getBlock (chainBlocks 0 parts last) x with
    | none => rw [if_neg (by omega)]
    | some blk => rw [hb] at hs; simp at hs

theorem chase_chainBlocks (last : BlockData) (hlast : last.targets = [])
    (parts : List (List Statement × Nat)) :
    ∀ (x f : Nat), x ≤ parts.length → x + 1 ≤ f →
      chase (computeAntecedents (chainBlocks 0 parts last)) f x = some 0 := by
  intro x
  induction x with
  | zero =>
    intro f _ hf
    obtain ⟨g, rfl⟩ : ∃ g, f = g + 1 := ⟨f - 1, by omega⟩
    rw [chase, antAt_chainBlocks last hlast, if_neg (by omega)]
  | succ y ih =>
    intro f hx hf
    obtain ⟨g, rfl⟩ : ∃ g, f = g + 1 := ⟨f - 1, by omega⟩
    rw [chase, antAt_chainBlocks last hlast, if_pos (by omega)]
    show chase _ g y = some 0
    exact ih g (by omega) (by omega)

theorem mergeLoop_eq_of_getBlock (ants : List (Option Antecedents)) (g : Nat)
    (body : Body) (id : Nat) (src : BlockData) (h : getBlock body id = some src) :
    mergeLoop ants (g + 1) body id
      = match src.terminator.content with
        | .goto target =>
          if (antAt ants target).isOne then
            match getBlock body target with
            | none => none
            | some tgt =>
              if target = id then none
              else mergeLoop ants g ((body.set target none).set id
                  (some ⟨src.statements ++ tgt.statements, tgt.terminator⟩)) id
          else some body
        | _ => some body := by
  rw [mergeLoop, h]

theorem mergeLoop_goto_step (ants : List (Option Antecedents)) (g : Nat)
    (body : Body) (id : Nat) (src : BlockData) (target : Nat)
    (h : getBlock body id = some src)
    (hgoto : src.terminator.content = .goto target) :
    mergeLoop ants (g + 1) body id
      = if (antAt ants target).isOne then
          match getBlock body target with
          | none => none
          | some tgt =>
            if target = id then none
            else mergeLoop ants g ((body.set target none).set id
                (some ⟨src.statements ++ tgt.statements, tgt.terminator⟩)) id
        else some body := by
  rw [mergeLoop_eq_of_getBlock ants g body id src h, hgoto]

theorem mergeLoop_merge_step (ants : List (Option Antecedents)) (g : Nat)
    (body : Body) (id : Nat) (src : BlockData) (target : Nat) (tgt : BlockData)
    (h : getBlock body id = some src)
    (hgoto : src.terminator.content = .goto target)
    (hone : (antAt ants target).isOne = true)
    (hget : getBlock body target = some tgt)
    (hne : target ≠ id) :
    mergeLoop ants (g + 1) body id
      = mergeLoop ants g ((body.set target none).set id
          (some ⟨src.statements ++ tgt.statements, tgt.terminator⟩)) id := by
  rw [mergeLoop_goto_step ants g body id src target h hgoto, if_pos hone, hget]
  simp only [if_neg hne]

theorem mergeLoop_stop_not_one (ants : List (Option Antecedents)) (g : Nat)
    (body : Body) (id : Nat) (src : BlockData) (target : Nat)
    (h : getBlock body id = some src)
    (hgoto : src.terminator.content = .goto target)
    (hone : (antAt ants target).isOne = false) :
    mergeLoop ants (g + 1) body id = some body := by
  rw [mergeLoop_goto_step ants g body id src target h hgoto, if_neg (by simp [hone])]

theorem mergeLoop_stop_of_no_goto (ants : List (Option Antecedents)) (f : Nat)
    (body : Body) (id : Nat) (src : BlockData)
    (h : getBlock body id = some src)
    (htg : src.terminator.content.targets = [])
    (hf : 1 ≤ f) :
    mergeLoop ants f body id = some body := by
  obtain ⟨g, rfl⟩ : ∃ g, f = g + 1 := ⟨f - 1, by omega⟩
  rw [mergeLoop_eq_of_getBlock ants g body id src h]
  cases hc : src.terminator.content
  case goto t =>
    rw [hc] at htg
    simp [RawTerminator.targets] at htg
  all_goals rfl

theorem getBlock_cons_append_replicate (cur : Option BlockData) (k : Nat) (suffix : Body) :
    getBlock (cur :: (List.replicate k none ++ suffix)) (k + 1) = getBlock suffix 0 := by
  rw [getBlock, getBlock, List.getD_eq_getElem?_getD, List.getD_eq_getElem?_getD,
    List.getElem?_cons_succ, List.getElem?_append_right (by simp)]
  simp

theorem set_cons_append_replicate (cur v : Option BlockData) (k : Nat) (suffix : Body) :
    (cur :: (List.replicate k none ++ suffix)).set (k + 1) v
      = cur :: (List.replicate k none ++ suffix.set 0 v) := by
  rw [List.set_cons_succ]
  congr 1
  have h := set_append_length (List.replicate k (none : Option BlockData)) suffix v
  rwa [List.length_replicate] at h

theorem mergeLoop_chainBlocks (last : BlockData) (hlast : last.targets = []) :
    ∀ (rest : List (List Statement × Nat)) (k : Nat) (acc : List Statement) (m f : Nat)
      (ants : List (Option Antecedents)),
      (∀ j, k + 1 ≤ j → j ≤ k + 1 + rest.length → (antAt ants j).isOne = true) →
      rest.length + 2 ≤ f →
      mergeLoop ants f
        (some ⟨acc, ⟨m, .goto (k + 1)⟩⟩
          :: (List.replicate k none ++ chainBlocks (k + 1) rest last)) 0
      = some (some ⟨acc ++ ((rest.map Prod.fst).flatten ++ last.statements), last.terminator⟩
          :: List.replicate (k + rest.length + 1) none) := by
  intro rest
  induction rest with
  | nil =>
    intro k acc m f ants hone hf
    obtain ⟨g, rfl⟩ : ∃ g, f = g + 1 := ⟨f - 1, by omega⟩
    have hget0 : getBlock (some (⟨acc, ⟨m, .goto (k + 1)⟩⟩ : BlockData)
        :: (List.replicate k none ++ chainBlocks (k + 1) [] last)) 0
        = some ⟨acc, ⟨m, .goto (k + 1)⟩⟩ := rfl
    have h1 : (antAt ants (k + 1)).isOne = true :=
      hone (k + 1) (Nat.le_refl _) (by simp)
    have hgetk : getBlock (some (⟨acc, ⟨m, .goto (k + 1)⟩⟩ : BlockData)
        :: (List.replicate k none ++ chainBlocks (k + 1) [] last)) (k + 1)
        = some last := by
      rw [getBlock_cons_append_replicate]
      rfl
    rw [mergeLoop_merge_step ants g _ 0 _ (k + 1) last hget0 rfl h1 hgetk (by omega)]
    simp only []
    have hset : ((some (⟨acc, ⟨m, .goto (k + 1)⟩⟩ : BlockData)
          :: (List.replicate k none ++ chainBlocks (k + 1) [] last)).set (k + 1) none).set 0
            (some ⟨acc ++ last.statements, last.terminator⟩)
        = some (⟨acc ++ last.statements, last.terminator⟩ : BlockData)
          :: List.replicate (k + 1) none := by
      rw [set_cons_append_replicate, List.set_cons_zero]
      rw [show (chainBlocks (k + 1) [] last).set 0 none = [none] from rfl]
      rw [replicate_append_cons]
      simp
    rw [hset]
    have hstop : mergeLoop ants g
        (some (⟨acc ++ last.statements, last.terminator⟩ : BlockData)
          :: List.replicate (k + 1) none) 0
        = some (some (⟨acc ++ last.statements, last.terminator⟩ : BlockData)
          :: List.replicate (k + 1) none) :=
      mergeLoop_stop_of_no_goto ants g
        (some (⟨acc ++ last.statements, last.terminator⟩ : BlockData)
          :: List.replicate (k + 1) none) 0
        ⟨acc ++ last.statements, last.terminator⟩ rfl hlast
        (by simp only [List.length_nil] at hf; omega)
    rw [hstop]
    simp
  | cons p rest2 ih =>
    intro k acc m f ants hone hf
    obtain ⟨ss, m2⟩ := p
    obtain ⟨g, rfl⟩ : ∃ g, f = g + 1 := ⟨f - 1, by omega⟩
    have hget0 : getBlock (some (⟨acc, ⟨m, .goto (k + 1)⟩⟩ : BlockData)
        :: (List.replicate k none ++ chainBlocks (k + 1) ((ss, m2) :: rest2) last)) 0
        = some ⟨acc, ⟨m, .goto (k + 1)⟩⟩ := rfl
    have h1 : (antAt ants (k + 1)).isOne = true :=
      hone (k + 1) (Nat.le_refl _) (by simp only [List.length_cons]; omega)
    have hchain : chainBlocks (k + 1) ((ss, m2) :: rest2) last
        = some ⟨ss, ⟨m2, .goto (k + 1 + 1)⟩⟩ :: chainBlocks (k + 1 + 1) rest2 last := rfl
    have hgetk : getBlock (some (⟨acc, ⟨m, .goto (k + 1)⟩⟩ : BlockData)
        :: (List.replicate k none ++ chainBlocks (k + 1) ((ss, m2) :: rest2) last)) (k + 1)
        = some ⟨ss, ⟨m2, .goto (k + 1 + 1)⟩⟩ := by
      rw [getBlock_cons_append_replicate, hchain]
      rfl
    rw [mergeLoop_merge_step ants g _ 0 _ (k + 1) ⟨ss, ⟨m2, .goto (k + 1 + 1)⟩⟩
      hget0 rfl h1 hgetk (by omega)]
    simp only []
    have hset : ((some (⟨acc, ⟨m, .goto (k + 1)⟩⟩ : BlockData)
          :: (List.replicate k none ++ chainBlocks (k + 1) ((ss, m2) :: rest2) last)).set
            (k + 1) none).set 0
            (some ⟨acc ++ ss, ⟨m2, .goto (k + 1 + 1)⟩⟩)
        = some (⟨acc ++ ss, ⟨m2, .goto (k + 1 + 1)⟩⟩ : BlockData)
          :: (List.replicate (k + 1) none ++ chainBlocks (k + 1 + 1) rest2 last) := by
      rw [set_cons_append_replicate, List.set_cons_zero, hchain]
      rw [show (some (⟨ss, ⟨m2, .goto (k + 1 + 1)⟩⟩ : BlockData)
          :: chainBlocks (k + 1 + 1) rest2 last).set 0 none
          = none :: chainBlocks (k + 1 + 1) rest2 last from rfl]
      rw [replicate_append_cons]
    rw [hset]
    have hrec := ih (k + 1) (acc ++ ss) m2 g ants
      (fun j hj1 hj2 => hone j (by omega) (by simp only [List.length_cons] at hj2 ⊢; omega))
      (by simp only [List.length_cons] at hf; omega)
    rw [hrec]
    simp only [List.map_cons, List.flatten_cons, List.length_cons]
    rw [List.append_assoc]
    have hcount : k + 1 + rest2.length + 1 = k + (rest2.length + 1) + 1 := by omega
    rw [hcount]
    simp [List.append_assoc]

theorem processIds_noop (ants : List (Option Antecedents)) (f : Nat) :
    ∀ (ids : List Nat) (body : Body),
      (∀ id ∈ ids, ∃ h, chase ants f id = some h ∧ mergeLoop ants f body h = some body) →
      processIds ants f ids body = some body := by
  intro ids
  induction ids with
  | nil => intro body _; rfl
  | cons id rest ih =>
    intro body hids
    obtain ⟨h, hc, hm⟩ := hids id (by simp)
    simp only [processIds, hc, hm]
    exact ih body (fun i hi => hids i (by simp [hi]))

/-- C1.  Running the goto-chain contraction pass on a body whose blocks form a
pure linear chain B0 -> B1 -> ... -> Bn of unconditional gotos (each non-entry
block having exactly one predecessor, the last block having no successors)
yields the body with the single block B0 whose statement list is the in-order
concatenation of the statement lists of B0..Bn and whose terminator is Bn's
terminator; the other slots are removed. -/
theorem c1_contraction_of_linear_chain
    (parts : List (List Statement × Nat)) (last : BlockData)
    (hlast : last.targets = []) :
    mergeGotoChains (parts.length + 2) (chainBlocks 0 parts last)
      = some (some ⟨(parts.map Prod.fst).flatten ++ last.statements, last.terminator⟩
          :: List.replicate parts.length none) := by
  cases parts with
  | nil =>
    have hchase : chase (computeAntecedents (chainBlocks 0 [] last))
        (([] : List (List Statement × Nat)).length + 2) 0 = some 0 :=
      chase_chainBlocks last hlast [] 0 _ (by simp) (by simp)
    have hstop : mergeLoop (computeAntecedents (chainBlocks 0 [] last))
        (([] : List (List Statement × Nat)).length + 2)
        (chainBlocks 0 [] last) 0 = some (chainBlocks 0 [] last) :=
      mergeLoop_stop_of_no_goto _ _ _ _ last rfl hlast (by simp)
    rw [mergeGotoChains]
    simp only [show (chainBlocks 0 [] last).length = 1 from rfl,
      show List.range 1 = [0] from rfl, processIds, hchase, hstop]
    rfl
  | cons p parts2 =>
    obtain ⟨ss, m⟩ := p
    have hlen : (chainBlocks 0 ((ss, m) :: parts2) last).length = parts2.length + 2 := by
      rw [length_chainBlocks]
      simp
    rw [mergeGotoChains, hlen]
    have hone : ∀ j, 1 ≤ j → j ≤ 1 + parts2.length →
        (antAt (computeAntecedents (chainBlocks 0 ((ss, m) :: parts2) last)) j).isOne
          = true := by
      intro j h1 h2
      rw [antAt_chainBlocks last hlast, if_pos (by simp only [List.length_cons]; omega)]
      rfl
    have hfirst : mergeLoop (computeAntecedents (chainBlocks 0 ((ss, m) :: parts2) last))
        (((ss, m) :: parts2).length + 2) (chainBlocks 0 ((ss, m) :: parts2) last) 0
        = some (some ⟨ss ++ ((parts2.map Prod.fst).flatten ++ last.statements),
              last.terminator⟩
            :: List.replicate (0 + parts2.length + 1) none) := by
      have h := mergeLoop_chainBlocks last hlast parts2 0 ss m
        (((ss, m) :: parts2).length + 2)
        (computeAntecedents (chainBlocks 0 ((ss, m) :: parts2) last))
        (fun j hj1 hj2 => hone j (by omega) (by omega))
        (by simp only [List.length_cons]; omega)
      simpa [chainBlocks] using h
    have hchase0 : chase (computeAntecedents (chainBlocks 0 ((ss, m) :: parts2) last))
        (((ss, m) :: parts2).length + 2) 0 = some 0 :=
      chase_chainBlocks last hlast ((ss, m) :: parts2) 0 _ (by omega) (by omega)
    have htrail : ∀ id ∈ (List.range (parts2.length + 1)).map Nat.succ,
        ∃ h, chase (computeAntecedents (chainBlocks 0 ((ss, m) :: parts2) last))
            (((ss, m) :: parts2).length + 2) id = some h
          ∧ mergeLoop (computeAntecedents (chainBlocks 0 ((ss, m) :: parts2) last))
              (((ss, m) :: parts2).length + 2)
              (some (⟨ss ++ ((parts2.map Prod.fst).flatten ++ last.statements),
                  last.terminator⟩ : BlockData)
                :: List.replicate (0 + parts2.length + 1) none) h
            = some (some (⟨ss ++ ((parts2.map Prod.fst).flatten ++ last.statements),
                  last.terminator⟩ : BlockData)
                :: List.replicate (0 + parts2.length + 1) none) := by
      intro id hid
      obtain ⟨j, hj, rfl⟩ := List.mem_map.mp hid
      have hjlt : j < parts2.length + 1 := List.mem_range.mp hj
      refine ⟨0, ?_, ?_⟩
      · exact chase_chainBlocks last hlast ((ss, m) :: parts2) (j + 1) _
          (by simp only [List.length_cons]; omega) (by simp only [List.length_cons]; omega)
      · exact mergeLoop_stop_of_no_goto _ _ _ 0 _ rfl hlast
          (by simp only [List.length_cons]; omega)
    rw [show parts2.length + 2 = (parts2.length + 1) + 1 from rfl, List.range_succ_eq_map]
    simp only [processIds, hchase0, hfirst]
    rw [processIds_noop _ _ _ _ htrail]
    simp

/-- Witness for C1: scenario A, the body B0{goto B1}, B1{goto B2}, B2{return}
contracts to the single block B0{return} with no statements. -/
theorem c1_witness :
    (returnBlock 2).targets = []
    ∧ mergeGotoChains 4 chainBody3
        = some [some ⟨[], ⟨2, .ret⟩⟩, none, none] := by
  refine ⟨by decide, ?_⟩
  have h := c1_contraction_of_linear_chain [([], 0), ([], 1)] (returnBlock 2) (by decide)
  simpa [chainBody3, returnBlock] using h

/-! ## Claim C4: the resolution-path walk -/

theorem applyPath_eq_foldl (reg : Nat → Nat) (ctx : TransCtx) (span : Nat) :
    ∀ (path : List ImplExprPathChunk) (cur : TraitRefKind) (curDecl : Nat),
      (∀ c ∈ path, noExtraGenerics c = true) →
      applyPath reg ctx span cur curDecl path
        = (.ok (path.foldl (specPathStep reg) (cur, curDecl)).1, ctx) := by
  intro path
  induction path with
  | nil => intro cur curDecl _; rfl
  | cons chunk rest ih =>
    intro cur curDecl hok
    cases chunk with
    | assocItem item gargs predId idx =>
      have hg : gargs.isEmpty = true := by
        have hm := hok (.assocItem item gargs predId idx) (by simp)
        simpa [noExtraGenerics] using hm
      simp only [applyPath, hg, if_true]
      rw [ih _ _ (fun c hc => hok c (by simp [hc]))]
      rfl
    | parent predId idx =>
      simp only [applyPath]
      rw [ih _ _ (fun c hc => hok c (by simp [hc]))]
      rfl

/-- C4.  When translating a Self or local-clause impl-expression witness, the
resolution path is consumed strictly left to right starting from the root
kind (SelfId for a Self witness, Clause(index) for a local-bound witness),
with the current trait declaration initialized to the witness's trait; each
associated-item element wraps the current kind in ItemClause, each parent
element wraps it in ParentClause, and each step advances the current trait
declaration to the declaration owning the consumed clause: the translated
kind is exactly the left fold of the specification's step function over the
path. -/
theorem c4_impl_expr_path_translation (reg : Nat → Nat) (ctx : TransCtx)
    (span : Nat) (tdr : Nat) :
    (∀ t path bt, (∀ c ∈ path, noExtraGenerics c = true) →
      translate_trait_impl_expr_aux reg ctx span ⟨.selfImpl t path, 0, bt⟩ tdr
        = (.ok ⟨(path.foldl (specPathStep reg) (.selfId, reg t)).1, tdr⟩, ctx))
    ∧ (∀ idx t path bt, (∀ c ∈ path, noExtraGenerics c = true) →
      translate_trait_impl_expr_aux reg ctx span ⟨.localBound idx t path, 0, bt⟩ tdr
        = (.ok ⟨(path.foldl (specPathStep reg) (.clause idx, reg t)).1, tdr⟩, ctx)) := by
  constructor
  · intro t path bt hok
    simp only [translate_trait_impl_expr_aux]
    rw [applyPath_eq_foldl reg ctx span path .selfId (reg t) hok]
    rfl
  · intro idx t path bt hok
    simp only [translate_trait_impl_expr_aux]
    rw [applyPath_eq_foldl reg ctx span path (.clause idx) (reg t) hok]
    rfl

/-- Witness for C4: scenario B.  A witness resolving to parent clause 0 of
local clause 2 followed by item clause 0 on that parent (with Trait1 the
witness's trait and Trait2 the parent predicate's trait) yields
ItemClause(ParentClause(Clause(2), Trait1, 0), Trait2, "AssocName", 0). -/
theorem c4_witness :
    translate_trait_impl_expr_aux (fun d => d) ⟨true, false, []⟩ 7
        ⟨.localBound 2 1 [.parent 2 0, .assocItem "AssocName" [] 3 0], 0, 9⟩ 9
      = (.ok ⟨.itemClause (.parentClause (.clause 2) 1 0) 2 "AssocName" 0, 9⟩,
          ⟨true, false, []⟩) := by
  have h := (c4_impl_expr_path_translation (fun d => d) ⟨true, false, []⟩ 7 9).2
    2 1 [.parent 2 0, .assocItem "AssocName" [] 3 0] 9 (by decide)
  exact h

/-! ## Claim C7: error recovery at the impl-expression boundary -/

/-- C7 as stated is refuted at this input: for an explicit error witness,
when the translator is not configured to treat impl-expression errors as
fatal (error_on_impl_expr_error is false), translate_trait_impl_expr returns
Ok with the Unknown kind but records no diagnostic even with recovery
enabled, and does not abort even with recovery disabled. -/
theorem c7_counterexample :
    translate_trait_impl_expr (fun d => d) ⟨false, false, []⟩ 3 ⟨.error "E", 0, 5⟩
      = (.ok ⟨.unknown "E", 5⟩, ⟨false, false, []⟩)
    ∧ translate_trait_impl_expr (fun d => d) ⟨true, false, []⟩ 3 ⟨.error "E", 0, 5⟩
      = (.ok ⟨.unknown "E", 5⟩, ⟨true, false, []⟩) := ⟨rfl, rfl⟩

/-- C7 (amended).  translate_trait_impl_expr never returns an error to its
caller; on any Err of the inner translation it returns Ok with the Unknown
kind carrying the error message and records a span-tagged diagnostic when
recovery is enabled, and aborts with that message when recovery is disabled;
on an explicit error witness it returns Ok with the Unknown leaf, recording a
diagnostic only when error_on_impl_expr_error is set, and aborting only when
error_on_impl_expr_error is set and recovery is disabled. -/
theorem c7_amended_error_recovery (reg : Nat → Nat) (ctx : TransCtx) (span : Nat)
    (ie : ImplExpr) :
    (translate_trait_impl_expr reg ctx span ie).1.isErr = false
    ∧ (∀ m ctx2,
        translate_trait_impl_expr_aux reg ctx span ie ie.binderTrait = (.err m, ctx2) →
        translate_trait_impl_expr reg ctx span ie
          = (if ctx.continue_on_failure then
               (.ok ⟨.unknown m, ie.binderTrait⟩,
                ctx2.spanErr span ("Error during trait resolution: " ++ m))
             else (.panicked ("Error during trait resolution: " ++ m), ctx2)))
    ∧ (∀ msg nc bt, ie = ⟨.error msg, nc, bt⟩ →
        translate_trait_impl_expr reg ctx span ie
          = (if ctx.error_on_impl_expr_error then
               (if ctx.continue_on_failure then
                  (.ok ⟨.unknown msg, bt⟩,
                   ctx.spanErr span ("Error during trait resolution: " ++ msg))
                else
                  (.panicked ("Error during trait resolution: " ++ msg),
                   ctx.spanErr span ("Error during trait resolution: " ++ msg)))
             else (.ok ⟨.unknown msg, bt⟩, ctx))) := by
  refine ⟨?_, ?_, ?_⟩
  · rcases haux : translate_trait_impl_expr_aux reg ctx span ie ie.binderTrait
      with ⟨o, ctx2⟩
    cases o with
    | ok r => simp [translate_trait_impl_expr, haux, Outcome.isErr]
    | err m =>
      simp only [translate_trait_impl_expr, haux]
      cases hf : ctx.continue_on_failure <;> simp [hf, Outcome.isErr]
    | panicked m => simp [translate_trait_impl_expr, haux, Outcome.isErr]
  · intro m ctx2 haux
    simp only [translate_trait_impl_expr, haux]
    cases hf : ctx.continue_on_failure <;> simp [hf]
  · intro msg nc bt hie
    subst hie
    cases hfat : ctx.error_on_impl_expr_error <;>
      cases hf : ctx.continue_on_failure <;>
        simp [translate_trait_impl_expr, translate_trait_impl_expr_aux, hfat, hf]

/-! ## Claims C8 and C9: predicate registration -/

/-- C8.  For every predicate whose kind is unsupported by the model,
register_predicate produces a translation error: under recovery it records a
span-tagged diagnostic and returns Err, otherwise it aborts; in both cases
nothing is registered (all the registration lists of the state are those of
the input state). -/
theorem c8_register_predicate_unsupported (reg : Nat → Nat) (st : PredState)
    (pred : Predicate) (span : Nat) (loc : PredicateLocation)
    (h : isUnsupportedPredicate pred.kind = true) :
    register_predicate reg st pred span loc
      = (if st.tctx.continue_on_failure then
           (.err (unsupportedMsg pred.kind),
            { st with tctx := st.tctx.spanErr span (unsupportedMsg pred.kind) })
         else (.panicked (unsupportedMsg pred.kind), st)) := by
  obtain ⟨k, br⟩ := pred
  cases k with
  | clause ck =>
    cases ck with
    | traitClause a => simp [isUnsupportedPredicate] at h
    | regionOutlives a b => simp [isUnsupportedPredicate] at h
    | typeOutlives a b => simp [isUnsupportedPredicate] at h
    | projection a b c => simp [isUnsupportedPredicate] at h
    | constArgHasType a b => simp [isUnsupportedPredicate] at h
    | wellFormed a =>
      cases hf : st.tctx.continue_on_failure <;>
        simp [register_predicate, errorOrPanic, unsupportedMsg, hf]
    | constEvaluatable a =>
      cases hf : st.tctx.continue_on_failure <;>
        simp [register_predicate, errorOrPanic, unsupportedMsg, hf]
  | aliasRelate a b =>
    cases hf : st.tctx.continue_on_failure <;>
      simp [register_predicate, errorOrPanic, unsupportedMsg, hf]
  | ambiguous =>
    cases hf : st.tctx.continue_on_failure <;>
      simp [register_predicate, errorOrPanic, unsupportedMsg, hf]
  | coerce a =>
    cases hf : st.tctx.continue_on_failure <;>
      simp [register_predicate, errorOrPanic, unsupportedMsg, hf]
  | constEquate a b =>
    cases hf : st.tctx.continue_on_failure <;>
      simp [register_predicate, errorOrPanic, unsupportedMsg, hf]
  | dynCompatible a =>
    cases hf : st.tctx.continue_on_failure <;>
      simp [register_predicate, errorOrPanic, unsupportedMsg, hf]
  | normalizesTo a =>
    cases hf : st.tctx.continue_on_failure <;>
      simp [register_predicate, errorOrPanic, unsupportedMsg, hf]
  | subtype a =>
    cases hf : st.tctx.continue_on_failure <;>
      simp [register_predicate, errorOrPanic, unsupportedMsg, hf]

/-- Witness for C8: an ambiguous predicate, under recovery, yields an Err
and a recorded diagnostic, registering nothing. -/
theorem c8_witness :
    register_predicate (fun d => d)
        ⟨⟨true, false, []⟩, [], [], [], [], [], []⟩ ⟨.ambiguous, 0⟩ 4 .base
      = (.err "Unsupported predicate",
          ⟨⟨true, false, [(4, "Unsupported predicate")]⟩, [], [], [], [], [], []⟩) := by
  have h := c8_register_predicate_unsupported (fun d => d)
    ⟨⟨true, false, []⟩, [], [], [], [], [], []⟩ ⟨.ambiguous, 0⟩ 4 .base (by decide)
  simpa [TransCtx.spanErr, unsupportedMsg] using h

theorem registerFiltered_eq_registerSeq_filter (reg : Nat → Nat)
    (keep : Predicate → Bool) :
    ∀ (preds : List (Predicate × Nat)) (st : PredState) (loc : PredicateLocation),
      registerFiltered reg keep preds st loc
        = registerSeq reg (preds.filter (fun pr => keep pr.1)) st loc := by
  intro preds
  induction preds with
  | nil => intro st loc; rfl
  | cons pr rest ih =>
    intro st loc
    obtain ⟨p, span⟩ := pr
    rw [List.filter_cons]
    by_cases hk : keep p = true
    · rw [if_pos (by simpa using hk)]
      rcases hr : register_predicate reg st p span loc with ⟨o, st2⟩
      cases o with
      | ok u => simp only [registerFiltered, hk, if_true, hr, registerSeq]; exact ih st2 loc
      | err m => simp only [registerFiltered, hk, if_true, hr, registerSeq]
      | panicked m => simp only [registerFiltered, hk, if_true, hr, registerSeq]
    · rw [if_neg (by simpa using hk)]
      have hk2 : keep p = false := by
        cases hkk : keep p
        · rfl
        · exact absurd hkk hk
      simp only [registerFiltered, hk2, Bool.false_eq_true, if_false]
      exact ih st loc

theorem registerSeq_append (reg : Nat → Nat) :
    ∀ (l1 l2 : List (Predicate × Nat)) (st : PredState) (loc : PredicateLocation),
      registerSeq reg (l1 ++ l2) st loc
        = (match registerSeq reg l1 st loc with
           | (.ok _, st2) => registerSeq reg l2 st2 loc
           | (.err m, st2) => (.err m, st2)
           | (.panicked m, st2) => (.panicked m, st2)) := by
  intro l1
  induction l1 with
  | nil => intro l2 st loc; rfl
  | cons pr rest ih =>
    intro l2 st loc
    obtain ⟨p, span⟩ := pr
    rcases hr : register_predicate reg st p span loc with ⟨o, st2⟩
    cases o with
    | ok u => simp only [List.cons_append, registerSeq, hr]; exact ih l2 st2 loc
    | err m => simp only [List.cons_append, registerSeq, hr]
    | panicked m => simp only [List.cons_append, registerSeq, hr]

/-- C9.  register_predicates processes the predicate list in exactly two
passes: it behaves as sequential one-by-one registration of the reordered
list consisting of the trait-clause predicates (in original input order)
followed by all other predicates (in original input order). -/
theorem c9_register_predicates_two_passes (reg : Nat → Nat)
    (preds : List (Predicate × Nat)) (st : PredState) (loc : PredicateLocation) :
    register_predicates reg preds st loc
      = registerSeq reg
          (preds.filter (fun pr => isTraitPred pr.1)
            ++ preds.filter (fun pr => !(isTraitPred pr.1))) st loc := by
  rw [registerSeq_append, register_predicates,
    registerFiltered_eq_registerSeq_filter reg isTraitPred preds st loc]
  rcases registerSeq reg (preds.filter (fun pr => isTraitPred pr.1)) st loc with ⟨o, st2⟩
  cases o with
  | ok u => exact registerFiltered_eq_registerSeq_filter reg _ preds st2 loc
  | err m => rfl
  | panicked m => rfl

/-! ## Claims C5, C6, C10: self-clause pruning -/

theorem not_mem_of_contains_false {A : Type} [BEq A] [LawfulBEq A] {l : List A} {a : A}
    (h : l.contains a = false) : a ∉ l := by
  intro hm
  have h2 := List.elem_eq_true_of_mem hm
  rw [List.contains, h2] at h
  exact Bool.true_eq_false.mp h

theorem range_drop_map_pred (n : Nat) :
    ((List.range n).drop 1).map (fun m => m - 1) = List.range (n - 1) := by
  cases n with
  | zero => rfl
  | succ m =>
    rw [List.range_succ_eq_map,
      show ((0 :: (List.range m).map Nat.succ).drop 1) = (List.range m).map Nat.succ from rfl,
      List.map_map, show m + 1 - 1 = m from rfl]
    have hcomp : ((fun m => m - 1) ∘ Nat.succ) = id := by
      funext x
      simp
    rw [hcomp, List.map_id]

theorem find?_map {A B : Type} (l : List A) (f : A → B) (p : B → Bool) :
    (l.map f).find? p = (l.find? (fun a => p (f a))).map f := by
  induction l with
  | nil => rfl
  | cons a l ih =>
    simp only [List.map_cons, List.find?]
    cases hp : p (f a) <;> simp [hp, ih]

theorem optionMapM_map_of_forall {A B : Type} (f : A → Option B) (g : A → B) :
    ∀ l : List A, (∀ a ∈ l, f a = some (g a)) → optionMapM f l = some (l.map g) := by
  intro l
  induction l with
  | nil => intro _; rfl
  | cons a l ih =>
    intro h
    have ha := h a (by simp)
    have hl := ih (fun x hx => h x (by simp [hx]))
    simp [optionMapM, ha, hl]

theorem mem_pruneSet_elim (crate : CrateM) (id : AnyTransId) (h : id ∈ pruneSet crate) :
    ∃ f ∈ crate.fun_decls, usesSelfClause f = false
      ∧ (id = .fnId f.def_id
         ∨ ∃ gid, f.is_global_initializer = some gid ∧ id = .globalId gid) := by
  rw [pruneSet, List.mem_flatMap] at h
  obtain ⟨td, htd, h⟩ := h
  rw [List.mem_flatMap] at h
  obtain ⟨fid, hfid, h⟩ := h
  cases hlf : lookupFun crate fid with
  | none => simp [hlf] at h
  | some f =>
    simp only [hlf] at h
    cases husv : usesSelfClause f with
    | true => simp [husv] at h
    | false =>
      simp only [husv, Bool.false_eq_true, if_false, List.mem_cons] at h
      refine ⟨f, List.mem_of_find?_eq_some hlf, husv, ?_⟩
      rcases h with rfl | h
      · exact Or.inl rfl
      · cases hgi : f.is_global_initializer with
        | none => rw [hgi] at h; simp at h
        | some gid =>
          rw [hgi] at h
          simp only [List.mem_singleton] at h
          exact Or.inr ⟨gid, rfl, h⟩

theorem usesSelfClause_false_elim (f : FunDeclM) (h : usesSelfClause f = false) :
    f.hasBody = true ∧ (0 : Nat) ∉ f.item.clauseRefs := by
  cases hb : f.hasBody with
  | false => rw [usesSelfClause, hb] at h; simp at h
  | true =>
    rw [usesSelfClause, hb] at h
    simp only [Bool.not_true, Bool.false_eq_true, if_false] at h
    exact ⟨rfl, not_mem_of_contains_false h⟩

theorem pruned_fun_no_zero (crate : CrateM)
    (huniqf : ∀ f1 ∈ crate.fun_decls, ∀ f2 ∈ crate.fun_decls,
      f1.def_id = f2.def_id → f1 = f2)
    (f : FunDeclM) (hf : f ∈ crate.fun_decls)
    (hmem : AnyTransId.fnId f.def_id ∈ pruneSet crate) :
    f.hasBody = true ∧ (0 : Nat) ∉ f.item.clauseRefs := by
  obtain ⟨f2, hf2, husv, hcase⟩ := mem_pruneSet_elim crate _ hmem
  have hfeq : f2 = f := by
    rcases hcase with heq | ⟨gid, hgi, heq⟩
    · have : f.def_id = f2.def_id := by injection heq
      exact huniqf f2 hf2 f hf this.symm
    · simp at heq
  subst hfeq
  exact usesSelfClause_false_elim f2 husv

theorem pruned_global_no_zero (crate : CrateM)
    (hlink : ∀ g ∈ crate.global_decls, ∀ f ∈ crate.fun_decls,
      f.is_global_initializer = some g.def_id → (0 : Nat) ∉ f.item.clauseRefs →
      (0 : Nat) ∉ g.item.clauseRefs)
    (g : GlobalDeclM) (hg : g ∈ crate.global_decls)
    (hmem : AnyTransId.globalId g.def_id ∈ pruneSet crate) :
    (0 : Nat) ∉ g.item.clauseRefs := by
  obtain ⟨f, hf, husv, hcase⟩ := mem_pruneSet_elim crate _ hmem
  rcases hcase with heq | ⟨gid, hgi, heq⟩
  · simp at heq
  · have hgid : gid = g.def_id := by
      injection heq with h2
      exact h2.symm
    subst hgid
    have hz := (usesSelfClause_false_elim f husv).2
    exact hlink g hg f hf hgi hz

theorem mem_drop_one_clause_id_pos {it : ItemM}
    (hdense : it.trait_clauses.map (fun c => c.clause_id)
      = List.range it.trait_clauses.length)
    {c : TraitClauseM} (hc : c ∈ it.trait_clauses.drop 1) : 1 ≤ c.clause_id := by
  have hm : c.clause_id ∈ (it.trait_clauses.map (fun c => c.clause_id)).drop 1 := by
    rw [← List.map_drop]
    exact List.mem_map_of_mem _ hc
  rw [hdense] at hm
  cases hn : it.trait_clauses.length with
  | zero => rw [hn] at hm; simp at hm
  | succ m =>
    rw [hn, List.range_succ_eq_map] at hm
    simp only [List.drop_succ_cons, List.drop_zero] at hm
    obtain ⟨j, _, hj⟩ := List.mem_map.mp hm
    omega

theorem pruneItem_eq_total (it : ItemM)
    (hdense : it.trait_clauses.map (fun c => c.clause_id)
      = List.range it.trait_clauses.length)
    (h0 : (0 : Nat) ∉ it.clauseRefs) :
    pruneItem it = some (pruneItemTotal it) := by
  rw [pruneItem, pruneItemTotal]
  have h1 : ∀ c ∈ it.trait_clauses.drop 1,
      (decClauseId c.clause_id).map (fun nid => { c with clause_id := nid })
        = some { c with clause_id := c.clause_id - 1 } := by
    intro c hc
    have hpos := mem_drop_one_clause_id_pos hdense hc
    rw [decClauseId, if_neg (by omega)]
    rfl
  have h2 : ∀ r ∈ it.clauseRefs, decClauseId r = some (r - 1) := by
    intro r hr
    rw [decClauseId, if_neg (by rintro rfl; exact h0 hr)]
  rw [optionMapM_map_of_forall _ _ _ h1, optionMapM_map_of_forall _ _ _ h2]
  rfl

/-- The whole pass, on a crate where every pruned item's decrements succeed:
the explicit total description. -/
theorem remove_unused_self_clause_total (crate : CrateM)
    (hfun : ∀ f ∈ crate.fun_decls, AnyTransId.fnId f.def_id ∈ pruneSet crate →
        pruneItem f.item = some (pruneItemTotal f.item))
    (hglob : ∀ g ∈ crate.global_decls, AnyTransId.globalId g.def_id ∈ pruneSet crate →
        pruneItem g.item = some (pruneItemTotal g.item)) :
    remove_unused_self_clause crate = some (removeSelfClauseTotal crate) := by
  rw [remove_unused_self_clause]
  have hf : optionMapM
      (fun f =>
        if (pruneSet crate).contains (.fnId f.def_id) then
          (pruneItem f.item).map (fun it => { f with item := it })
        else some f)
      crate.fun_decls
      = some (crate.fun_decls.map (fun f =>
          if (pruneSet crate).contains (.fnId f.def_id) then
            { f with item := pruneItemTotal f.item }
          else f)) := by
    apply optionMapM_map_of_forall
    intro f hfm
    cases hc : (pruneSet crate).contains (.fnId f.def_id) with
    | false => simp [hc]
    | true =>
      have hmem : AnyTransId.fnId f.def_id ∈ pruneSet crate := by
        have := List.mem_of_elem_eq_true hc
        exact this
      simp [hc, hfun f hfm hmem]
  have hg : optionMapM
      (fun g =>
        if (pruneSet crate).contains (.globalId g.def_id) then
          (pruneItem g.item).map (fun it => { g with item := it })
        else some g)
      crate.global_decls
      = some (crate.global_decls.map (fun g =>
          if (pruneSet crate).contains (.globalId g.def_id) then
            { g with item := pruneItemTotal g.item }
          else g)) := by
    apply optionMapM_map_of_forall
    intro g hgm
    cases hc : (pruneSet crate).contains (.globalId g.def_id) with
    | false => simp [hc]
    | true =>
      have hmem : AnyTransId.globalId g.def_id ∈ pruneSet crate :=
        List.mem_of_elem_eq_true hc
      simp [hc, hglob g hgm hmem]
  rw [removeSelfClauseTotal, hf, hg]
  simp only [Option.bind_eq_bind, Option.some_bind, Option.pure_def, Option.some_inj]
  congr 1
  · rw [List.map_map]
    apply List.map_congr_left
    intro f _
    rw [Function.comp_apply, pruneFunStep]
    by_cases hc : (pruneSet crate).contains (AnyTransId.fnId f.def_id) = true
    · rw [if_pos hc, if_pos hc]
    · rw [if_neg hc, if_neg hc]
  · rw [List.map_map]
    apply List.map_congr_left
    intro g _
    rw [Function.comp_apply, pruneGlobalStep]
    by_cases hc : (pruneSet crate).contains (AnyTransId.globalId g.def_id) = true
    · rw [if_pos hc, if_pos hc]
    · rw [if_neg hc, if_neg hc]

theorem exists_of_mem_optionMapM {A B : Type} (f : A → Option B) :
    ∀ {l : List A} {l2 : List B}, optionMapM f l = some l2 →
      ∀ b ∈ l2, ∃ a ∈ l, f a = some b := by
  intro l
  induction l with
  | nil =>
    intro l2 h b hb
    simp only [optionMapM, Option.some_inj] at h
    subst h
    simp at hb
  | cons a l ih =>
    intro l2 h b hb
    cases hfa : f a with
    | none => rw [optionMapM, hfa] at h; simp at h
    | some b0 =>
      cases hml : optionMapM f l with
      | none => rw [optionMapM, hfa, hml] at h; simp at h
      | some bs =>
        rw [optionMapM, hfa, hml] at h
        simp only [Option.bind_eq_bind, Option.some_bind, Option.pure_def,
          Option.some_inj] at h
        subst h
        rcases List.mem_cons.mp hb with rfl | hbs
        · exact ⟨a, by simp, hfa⟩
        · obtain ⟨a2, ha2, hfa2⟩ := ih hml b hbs
          exact ⟨a2, by simp [ha2], hfa2⟩

theorem contains_false_of_not_mem {A : Type} [BEq A] [LawfulBEq A] {l : List A} {a : A}
    (h : a ∉ l) : l.contains a = false := by
  cases hc : l.contains a with
  | false => rfl
  | true => exact absurd (List.mem_of_elem_eq_true hc) h

theorem pruneSite_target (s : List AnyTransId) (site : GenericArgsM) :
    (pruneSite s site).target = site.target := by
  obtain ⟨tgt, refs⟩ := site
  cases tgt with
  | none => rfl
  | some tid =>
    dsimp only [pruneSite]
    split <;> rfl

/-- C6.  A trait method or associated-constant initializer whose function
declaration has no available body is conservatively treated as using the Self
clause: it is never added to the prune set, its declared clause list and
clause-id references are unchanged by the pass, and every generic-argument
site targeting it keeps all its witness slots. -/
theorem c6_opaque_fun_never_pruned (crate : CrateM) (f : FunDeclM)
    (hf : f ∈ crate.fun_decls)
    (hnobody : f.hasBody = false)
    (huniqf : ∀ f1 ∈ crate.fun_decls, ∀ f2 ∈ crate.fun_decls,
      f1.def_id = f2.def_id → f1 = f2) :
    AnyTransId.fnId f.def_id ∉ pruneSet crate
    ∧ (∀ c2, remove_unused_self_clause crate = some c2 →
        ∀ f2 ∈ c2.fun_decls, f2.def_id = f.def_id →
          f2.item.trait_clauses = f.item.trait_clauses
          ∧ f2.item.clauseRefs = f.item.clauseRefs)
    ∧ (∀ site : GenericArgsM, site.target = some (.fnId f.def_id) →
        pruneSite (pruneSet crate) site = site) := by
  have hnot : AnyTransId.fnId f.def_id ∉ pruneSet crate := by
    intro hmem
    have hb := (pruned_fun_no_zero crate huniqf f hf hmem).1
    rw [hnobody] at hb
    exact Bool.false_ne_true hb
  have hcont : (pruneSet crate).contains (.fnId f.def_id) = false :=
    contains_false_of_not_mem hnot
  refine ⟨hnot, ?_, ?_⟩
  · intro c2 htrans f2 hf2 hdef
    rw [remove_unused_self_clause] at htrans
    cases hmf : optionMapM
        (fun f =>
          if (pruneSet crate).contains (.fnId f.def_id) then
            (pruneItem f.item).map (fun it => { f with item := it })
          else some f)
        crate.fun_decls with
    | none => rw [hmf] at htrans; simp at htrans
    | some funs =>
      cases hmg : optionMapM
          (fun g =>
            if (pruneSet crate).contains (.globalId g.def_id) then
              (pruneItem g.item).map (fun it => { g with item := it })
            else some g)
          crate.global_decls with
      | none => rw [hmf, hmg] at htrans; simp at htrans
      | some globals =>
        rw [hmf, hmg] at htrans
        simp only [Option.bind_eq_bind, Option.some_bind, Option.pure_def,
          Option.some_inj] at htrans
        subst htrans
        simp only [List.mem_map] at hf2
        obtain ⟨f3, hf3, hf3eq⟩ := hf2
        obtain ⟨f4, hf4, hf4eq⟩ := exists_of_mem_optionMapM _ hmf f3 hf3
        have hdef4 : f4.def_id = f.def_id := by
          have hd3 : f3.def_id = f4.def_id := by
            cases hc4 : (pruneSet crate).contains (.fnId f4.def_id) with
            | false =>
              rw [hc4] at hf4eq
              simp only [Bool.false_eq_true, if_false, Option.some_inj] at hf4eq
              rw [hf4eq]
            | true =>
              rw [hc4] at hf4eq
              simp only [if_true] at hf4eq
              cases hpi : pruneItem f4.item with
              | none => rw [hpi] at hf4eq; simp at hf4eq
              | some it4 =>
                rw [hpi] at hf4eq
                simp only [Option.map_some', Option.some_inj] at hf4eq
                rw [← hf4eq]
          have hd2 : f2.def_id = f3.def_id := by
            rw [← hf3eq]
          rw [← hdef, hd2, hd3]
        have hff : f4 = f := huniqf f4 hf4 f hf hdef4
        subst hff
        rw [hcont] at hf4eq
        simp only [Bool.false_eq_true, if_false, Option.some_inj] at hf4eq
        subst hf4eq
        rw [← hf3eq]
        exact ⟨rfl, rfl⟩
  · intro site hsite
    obtain ⟨tgt, refs⟩ := site
    simp only at hsite
    subst hsite
    dsimp only [pruneSite]
    rw [hcont]
    simp

/-- C10.  The pruning pass never decrements a trait-clause id below zero: for
every crate whose declared clause ids are dense and zero-based and whose
global declarations reference clause 0 only if their initializer body does
(the pass's reasoning, section 4.6 of the specification), every unchecked
subtraction clause_id.index() - 1 in the pass succeeds, so the pass cannot
panic there: it returns a result. -/
theorem c10_decrement_never_underflows (crate : CrateM)
    (huniqf : ∀ f1 ∈ crate.fun_decls, ∀ f2 ∈ crate.fun_decls,
      f1.def_id = f2.def_id → f1 = f2)
    (hlink : ∀ g ∈ crate.global_decls, ∀ f ∈ crate.fun_decls,
      f.is_global_initializer = some g.def_id → (0 : Nat) ∉ f.item.clauseRefs →
      (0 : Nat) ∉ g.item.clauseRefs)
    (hdensef : ∀ f ∈ crate.fun_decls,
      f.item.trait_clauses.map (fun c => c.clause_id)
        = List.range f.item.trait_clauses.length)
    (hdenseg : ∀ g ∈ crate.global_decls,
      g.item.trait_clauses.map (fun c => c.clause_id)
        = List.range g.item.trait_clauses.length) :
    (remove_unused_self_clause crate).isSome = true := by
  have hfun : ∀ f ∈ crate.fun_decls, AnyTransId.fnId f.def_id ∈ pruneSet crate →
      pruneItem f.item = some (pruneItemTotal f.item) := fun f hf hmem =>
    pruneItem_eq_total _ (hdensef f hf) ((pruned_fun_no_zero crate huniqf f hf hmem).2)
  have hglob : ∀ g ∈ crate.global_decls, AnyTransId.globalId g.def_id ∈ pruneSet crate →
      pruneItem g.item = some (pruneItemTotal g.item) := fun g hg hmem =>
    pruneItem_eq_total _ (hdenseg g hg) (pruned_global_no_zero crate hlink g hg hmem)
  rw [remove_unused_self_clause_total crate hfun hglob]
  rfl

/-- Witness for C10: the pass runs to completion on a concrete crate with a
pruned method. -/
theorem c10_witness : (remove_unused_self_clause pruneCrateExample).isSome = true :=
  c10_decrement_never_underflows pruneCrateExample (by decide) (by decide) (by decide)
    (by decide)

/-- Witness for C6: the opaque method of the example crate is not pruned and
sites targeting it are unchanged. -/
theorem c6_witness :
    AnyTransId.fnId 0 ∉ pruneSet opaqueCrateExample
    ∧ pruneSite (pruneSet opaqueCrateExample) ⟨some (.fnId 0), [10]⟩
        = ⟨some (.fnId 0), [10]⟩ := by
  have h := c6_opaque_fun_never_pruned opaqueCrateExample
    ⟨0, false, none, ⟨[⟨0, 5⟩], [], []⟩⟩ (by decide) (by decide) (by decide)
  exact ⟨h.1, h.2.2 ⟨some (.fnId 0), [10]⟩ rfl⟩

theorem pruneSite_refs_of_target_mem (s : List AnyTransId) (site : GenericArgsM)
    (id : AnyTransId) (h : site.target = some id) (hc : s.contains id = true) :
    (pruneSite s site).trait_refs = site.trait_refs.drop 1 := by
  obtain ⟨tgt, refs⟩ := site
  simp only at h
  subst h
  dsimp only [pruneSite]
  rw [hc]
  simp

theorem prunedItemTotal_facts (it : ItemM) (s : List AnyTransId)
    (hdense : it.trait_clauses.map (fun c => c.clause_id)
      = List.range it.trait_clauses.length)
    (h0 : (0 : Nat) ∉ it.clauseRefs)
    (hrefsb : ∀ r ∈ it.clauseRefs, r < it.trait_clauses.length) :
    (pruneSitesOfItem s (pruneItemTotal it)).trait_clauses.map (fun c => c.clause_id)
        = List.range (it.trait_clauses.length - 1)
    ∧ (pruneSitesOfItem s (pruneItemTotal it)).trait_clauses.length
        = it.trait_clauses.length - 1
    ∧ ∀ r2 ∈ (pruneSitesOfItem s (pruneItemTotal it)).clauseRefs,
        r2 < it.trait_clauses.length - 1 := by
  have htc : (pruneSitesOfItem s (pruneItemTotal it)).trait_clauses
      = (it.trait_clauses.drop 1).map (fun c => { c with clause_id := c.clause_id - 1 }) :=
    rfl
  have hcr : (pruneSitesOfItem s (pruneItemTotal it)).clauseRefs
      = it.clauseRefs.map (fun r => r - 1) := rfl
  refine ⟨?_, ?_, ?_⟩
  · rw [htc, List.map_map]
    have hcomp : ((fun c => c.clause_id)
          ∘ (fun c => { c with clause_id := c.clause_id - 1 } : TraitClauseM → TraitClauseM))
        = (fun m => m - 1) ∘ (fun c : TraitClauseM => c.clause_id) := rfl
    rw [hcomp, ← List.map_map, List.map_drop, hdense, range_drop_map_pred]
  · rw [htc]
    simp
  · rw [hcr]
    intro r2 hr2
    obtain ⟨r, hr, hr2eq⟩ := List.mem_map.mp hr2
    have hrpos : r ≠ 0 := by rintro rfl; exact h0 hr
    have hrlt := hrefsb r hr
    omega

/-- C5.  After the pruning pass, for every item from which the synthetic Self
clause (id 0) was removed: its declared trait-clause ids are again dense and
zero-based (each former id i becomes i - 1), every generic-argument list
anywhere in the crate targeting that item has witness slot 0 removed so that
its witness count equals the item's new declared clause count, and no
trait-clause id referenced in the pruned item exceeds its new clause-list
length minus one.  (Hypotheses: ids are unambiguous; declared clause ids are
dense and zero-based; clause-id references are in range; witness counts match
the declared clause counts; and globals reference clause 0 only if their
initializer body does, per section 4.6.) -/
theorem c5_pruning_consistency (crate : CrateM) (id : AnyTransId) (it : ItemM)
    (c2 : CrateM)
    (huniqf : ∀ f1 ∈ crate.fun_decls, ∀ f2 ∈ crate.fun_decls,
      f1.def_id = f2.def_id → f1 = f2)
    (hlink : ∀ g ∈ crate.global_decls, ∀ f ∈ crate.fun_decls,
      f.is_global_initializer = some g.def_id → (0 : Nat) ∉ f.item.clauseRefs →
      (0 : Nat) ∉ g.item.clauseRefs)
    (hdensef : ∀ f ∈ crate.fun_decls,
      f.item.trait_clauses.map (fun c => c.clause_id)
        = List.range f.item.trait_clauses.length)
    (hdenseg : ∀ g ∈ crate.global_decls,
      g.item.trait_clauses.map (fun c => c.clause_id)
        = List.range g.item.trait_clauses.length)
    (hid : id ∈ pruneSet crate)
    (hit : itemOf crate id = some it)
    (hrefsb : ∀ r ∈ it.clauseRefs, r < it.trait_clauses.length)
    (hsites : ∀ site ∈ allSites crate, site.target = some id →
      site.trait_refs.length = it.trait_clauses.length)
    (htrans : remove_unused_self_clause crate = some c2) :
    (∃ it2, itemOf c2 id = some it2
      ∧ it2.trait_clauses.map (fun c => c.clause_id)
          = List.range (it.trait_clauses.length - 1)
      ∧ it2.trait_clauses.length = it.trait_clauses.length - 1
      ∧ ∀ r2 ∈ it2.clauseRefs, r2 < it.trait_clauses.length - 1)
    ∧ ∀ site2 ∈ allSites c2, site2.target = some id →
        site2.trait_refs.length = it.trait_clauses.length - 1 := by
  have hfun : ∀ f ∈ crate.fun_decls, AnyTransId.fnId f.def_id ∈ pruneSet crate →
      pruneItem f.item = some (pruneItemTotal f.item) := fun f hf hmem =>
    pruneItem_eq_total _ (hdensef f hf) ((pruned_fun_no_zero crate huniqf f hf hmem).2)
  have hglob : ∀ g ∈ crate.global_decls, AnyTransId.globalId g.def_id ∈ pruneSet crate →
      pruneItem g.item = some (pruneItemTotal g.item) := fun g hg hmem =>
    pruneItem_eq_total _ (hdenseg g hg) (pruned_global_no_zero crate hlink g hg hmem)
  have htot := remove_unused_self_clause_total crate hfun hglob
  rw [htot, Option.some_inj] at htrans
  subst htrans
  constructor
  · cases id with
    | fnId n =>
      cases hlf : lookupFun crate n with
      | none => rw [itemOf, hlf] at hit; simp at hit
      | some f =>
        rw [itemOf, hlf] at hit
        simp only [Option.map_some', Option.some_inj] at hit
        have hfm : f ∈ crate.fun_decls := List.mem_of_find?_eq_some hlf
        have hfid : f.def_id = n := by
          have h2 := List.find?_some hlf
          simpa using h2
        have hmemf : AnyTransId.fnId f.def_id ∈ pruneSet crate := by
          rw [hfid]; exact hid
        have h0 : (0 : Nat) ∉ it.clauseRefs := by
          rw [← hit]
          exact (pruned_fun_no_zero crate huniqf f hfm hmemf).2
        have hdense : it.trait_clauses.map (fun c => c.clause_id)
            = List.range it.trait_clauses.length := by
          rw [← hit]; exact hdensef f hfm
        have hcont : (pruneSet crate).contains (.fnId f.def_id) = true :=
          List.elem_eq_true_of_mem hmemf
        refine ⟨pruneSitesOfItem (pruneSet crate) (pruneItemTotal it), ?_, ?_⟩
        · have hfind : lookupFun (removeSelfClauseTotal crate) n
              = (lookupFun crate n).map (pruneFunStep (pruneSet crate)) := by
            rw [lookupFun, removeSelfClauseTotal, find?_map]
            have hpred : (fun a : FunDeclM => (pruneFunStep (pruneSet crate) a).def_id == n)
                = (fun a : FunDeclM => a.def_id == n) := by
              funext a
              rw [pruneFunStep]
              by_cases hc : (pruneSet crate).contains (AnyTransId.fnId a.def_id) = true
              · rw [if_pos hc]
              · rw [if_neg hc]
            rw [hpred]
            rfl
          rw [itemOf, hfind, hlf]
          simp only [Option.map_some', Option.some_inj]
          rw [pruneFunStep, if_pos hcont, hit]
        · exact prunedItemTotal_facts it _ hdense h0 hrefsb
    | globalId n =>
      cases hlg : lookupGlobal crate n with
      | none => rw [itemOf, hlg] at hit; simp at hit
      | some g =>
        rw [itemOf, hlg] at hit
        simp only [Option.map_some', Option.some_inj] at hit
        have hgm : g ∈ crate.global_decls := List.mem_of_find?_eq_some hlg
        have hgid : g.def_id = n := by
          have h2 := List.find?_some hlg
          simpa using h2
        have hmemg : AnyTransId.globalId g.def_id ∈ pruneSet crate := by
          rw [hgid]; exact hid
        have h0 : (0 : Nat) ∉ it.clauseRefs := by
          rw [← hit]
          exact pruned_global_no_zero crate hlink g hgm hmemg
        have hdense : it.trait_clauses.map (fun c => c.clause_id)
            = List.range it.trait_clauses.length := by
          rw [← hit]; exact hdenseg g hgm
        have hcont : (pruneSet crate).contains (.globalId g.def_id) = true :=
          List.elem_eq_true_of_mem hmemg
        refine ⟨pruneSitesOfItem (pruneSet crate) (pruneItemTotal it), ?_, ?_⟩
        · have hfind : lookupGlobal (removeSelfClauseTotal crate) n
              = (lookupGlobal crate n).map (pruneGlobalStep (pruneSet crate)) := by
            rw [lookupGlobal, removeSelfClauseTotal, find?_map]
            have hpred : (fun a : GlobalDeclM => (pruneGlobalStep (pruneSet crate) a).def_id == n)
                = (fun a : GlobalDeclM => a.def_id == n) := by
              funext a
              rw [pruneGlobalStep]
              by_cases hc : (pruneSet crate).contains (AnyTransId.globalId a.def_id) = true
              · rw [if_pos hc]
              · rw [if_neg hc]
            rw [hpred]
            rfl
          rw [itemOf, hfind, hlg]
          simp only [Option.map_some', Option.some_inj]
          rw [pruneGlobalStep, if_pos hcont, hit]
        · exact prunedItemTotal_facts it _ hdense h0 hrefsb
  · intro site2 hsite2 htgt
    have hext : ∃ site1 ∈ allSites crate, site2 = pruneSite (pruneSet crate) site1 := by
      rw [removeSelfClauseTotal, allSites, List.mem_flatMap] at hsite2
      obtain ⟨item2, hitem2, hs2⟩ := hsite2
      rw [List.mem_append] at hitem2
      cases hitem2 with
      | inl hitem2 =>
        rw [List.map_map, List.mem_map] at hitem2
        obtain ⟨f0, hf0, hf0eq⟩ := hitem2
        have hsites2 : item2.argsSites
            = f0.item.argsSites.map (pruneSite (pruneSet crate)) := by
          rw [← hf0eq, Function.comp_apply, pruneFunStep]
          by_cases hc : (pruneSet crate).contains (AnyTransId.fnId f0.def_id) = true
          · rw [if_pos hc]; rfl
          · rw [if_neg hc]; rfl
        rw [hsites2, List.mem_map] at hs2
        obtain ⟨site1, hs1, hs1eq⟩ := hs2
        refine ⟨site1, ?_, hs1eq.symm⟩
        rw [allSites, List.mem_flatMap]
        exact ⟨f0.item, by rw [List.mem_append]; exact Or.inl (List.mem_map_of_mem _ hf0),
          hs1⟩
      | inr hitem2 =>
        rw [List.map_map, List.mem_map] at hitem2
        obtain ⟨g0, hg0, hg0eq⟩ := hitem2
        have hsites2 : item2.argsSites
            = g0.item.argsSites.map (pruneSite (pruneSet crate)) := by
          rw [← hg0eq, Function.comp_apply, pruneGlobalStep]
          by_cases hc : (pruneSet crate).contains (AnyTransId.globalId g0.def_id) = true
          · rw [if_pos hc]; rfl
          · rw [if_neg hc]; rfl
        rw [hsites2, List.mem_map] at hs2
        obtain ⟨site1, hs1, hs1eq⟩ := hs2
        refine ⟨site1, ?_, hs1eq.symm⟩
        rw [allSites, List.mem_flatMap]
        exact ⟨g0.item, by rw [List.mem_append]; exact Or.inr (List.mem_map_of_mem _ hg0),
          hs1⟩
    obtain ⟨site1, hs1mem, hs1eq⟩ := hext
    have htgt1 : site1.target = some id := by
      rw [hs1eq, pruneSite_target] at htgt
      exact htgt
    have hlen1 := hsites site1 hs1mem htgt1
    have hcont : (pruneSet crate).contains id = true := List.elem_eq_true_of_mem hid
    rw [hs1eq, pruneSite_refs_of_target_mem _ _ id htgt1 hcont, List.length_drop, hlen1]

/-- Witness for C5: scenario C on a concrete crate.  The pruned method had
clauses 0,1 and one site targeting it with two witness slots; after the pass
the clauses are renumbered to the single id 0, the references stay in range,
and the site keeps exactly one witness slot. -/
theorem c5_witness :
    (∃ it2, itemOf (removeSelfClauseTotal pruneCrateExample) (AnyTransId.fnId 0)
        = some it2
      ∧ it2.trait_clauses.map (fun c => c.clause_id) = List.range 1
      ∧ it2.trait_clauses.length = 1
      ∧ ∀ r2 ∈ it2.clauseRefs, r2 < 1)
    ∧ ∀ site2 ∈ allSites (removeSelfClauseTotal pruneCrateExample),
        site2.target = some (AnyTransId.fnId 0) → site2.trait_refs.length = 1 := by
  have h := c5_pruning_consistency pruneCrateExample (AnyTransId.fnId 0)
    ⟨[⟨0, 5⟩, ⟨1, 6⟩], [1], [⟨some (.fnId 0), [10, 11]⟩]⟩
    (removeSelfClauseTotal pruneCrateExample)
    (by decide) (by decide) (by decide) (by decide) (by decide) (by decide)
    (by decide) (by decide) (by decide)
  exact h

/-- Witness for the amended C7: with recovery enabled and
error_on_impl_expr_error set, an explicit error witness yields Ok with the
Unknown kind and one recorded span-tagged diagnostic. -/
theorem c7_witness :
    translate_trait_impl_expr (fun d => d) ⟨true, true, []⟩ 3 ⟨.error "E", 0, 5⟩
      = (.ok ⟨.unknown "E", 5⟩, ⟨true, true, [(3, "Error during trait resolution: E")]⟩) := by
  have h := (c7_amended_error_recovery (fun d => d) ⟨true, true, []⟩ 3
    ⟨.error "E", 0, 5⟩).2.2 "E" 0 5 rfl
  simpa [TransCtx.spanErr] using h

/-! ## Claim C3: idempotence and non-increase of goto-chain contraction -/

theorem getBlock_set_self {b : Body} {k : Nat} (v : Option BlockData)
    (hk : k < b.length) : getBlock (b.set k v) k = v := by
  rw [getBlock, List.getD_eq_getElem?_getD, List.getElem?_set_self hk]
  rfl

theorem getBlock_set_ne {b : Body} {j k : Nat} (v : Option BlockData)
    (hjk : k ≠ j) : getBlock (b.set k v) j = getBlock b j := by
  rw [getBlock, getBlock, List.getD_eq_getElem?_getD, List.getD_eq_getElem?_getD,
    List.getElem?_set_ne hjk]

theorem getBlock_lt_length {b : Body} {k : Nat} {blk : BlockData}
    (h : getBlock b k = some blk) : k < b.length := getD_some_lt_length h

theorem predCount_eq_sum (body : Body) (x : Nat) :
    predCount body x = (body.map (fun ob => contribOf ob x)).sum := by
  rw [predCount, predList]
  have key : ∀ (bs : Body) (i : Nat),
      (predListFrom i bs x).length = (bs.map (fun ob => contribOf ob x)).sum := by
    intro bs
    induction bs with
    | nil => intro i; rfl
    | cons ob rest ih =>
      intro i
      cases ob with
      | none =>
        rw [predListFrom, List.map_cons, List.sum_cons, ih]
        simp [contribOf]
      | some blk =>
        rw [predListFrom, List.length_append, List.length_replicate, List.map_cons,
          List.sum_cons, ih]
        simp [contribOf]
  exact key body 0

theorem sum_set (l : List Nat) : ∀ (k v : Nat), k < l.length →
    (l.set k v).sum + l.getD k 0 = l.sum + v := by
  induction l with
  | nil => intro k v hk; simp at hk
  | cons a l ih =>
    intro k v hk
    cases k with
    | zero => simp [List.set_cons_zero]; omega
    | succ k2 =>
      rw [List.set_cons_succ]
      simp only [List.sum_cons, List.getD_cons_succ]
      have := ih k2 v (by simpa using hk)
      omega

theorem getD_map_contrib (body : Body) (x k : Nat) :
    (body.map (fun ob => contribOf ob x)).getD k 0 = contribOf (getBlock body k) x := by
  rw [List.getD_eq_getElem?_getD, List.getElem?_map, getBlock, List.getD_eq_getElem?_getD]
  cases body[k]? with
  | none => rfl
  | some ob => rfl

theorem predCount_merge_step {b : Body} {h t : Nat} {src tgt : BlockData}
    (hsrc : getBlock b h = some src)
    (hgoto : src.terminator.content = .goto t)
    (htgt : getBlock b t = some tgt)
    (hne : t ≠ h) (x : Nat) :
    predCount b x
      = predCount ((b.set t none).set h
          (some ⟨src.statements ++ tgt.statements, tgt.terminator⟩)) x
        + (if x = t then 1 else 0) := by
  have hhlt : h < b.length := getBlock_lt_length hsrc
  have htlt : t < b.length := getBlock_lt_length htgt
  rw [predCount_eq_sum, predCount_eq_sum]
  rw [List.map_set, List.map_set]
  have h1 := sum_set ((b.map (fun ob => contribOf ob x)).set t (contribOf none x))
    h (contribOf (some ⟨src.statements ++ tgt.statements, tgt.terminator⟩) x)
    (by simpa using hhlt)
  have h2 := sum_set (b.map (fun ob => contribOf ob x)) t (contribOf none x)
    (by simpa using htlt)
  have h3 : ((b.map (fun ob => contribOf ob x)).set t (contribOf none x)).getD h 0
      = (b.map (fun ob => contribOf ob x)).getD h 0 := by
    rw [List.getD_eq_getElem?_getD, List.getD_eq_getElem?_getD,
      List.getElem?_set_ne hne]
  have h4 : (b.map (fun ob => contribOf ob x)).getD h 0 = (if x = t then 1 else 0) := by
    rw [getD_map_contrib, hsrc]
    have hc : contribOf (some src) x = src.terminator.content.targets.count x := rfl
    rw [hc, hgoto]
    show (t :: []).count x = _
    rw [List.count_cons]
    simp only [List.count_nil, Nat.zero_add]
    by_cases hx : x = t
    · subst hx
      simp
    · rw [if_neg (by simpa using (fun he => hx he.symm)), if_neg hx]
  have h5 : (b.map (fun ob => contribOf ob x)).getD t 0 = tgt.targets.count x := by
    rw [getD_map_contrib, htgt]
    rfl
  have h6 : contribOf (some ⟨src.statements ++ tgt.statements, tgt.terminator⟩) x
      = tgt.targets.count x := rfl
  rw [h3, h4] at h1
  rw [h5] at h2
  rw [h6] at h1 ⊢
  have h7 : contribOf (none : Option BlockData) x = 0 := rfl
  rw [h7] at h1 h2 ⊢
  by_cases hx : x = t
  · rw [if_pos hx] at h1 ⊢
    omega
  · rw [if_neg hx] at h1 ⊢
    omega

theorem chase_mono (ants : List (Option Antecedents)) :
    ∀ (f f2 id h : Nat), chase ants f id = some h → f ≤ f2 → chase ants f2 id = some h := by
  intro f
  induction f with
  | zero => intro f2 id h hc _; rw [chase] at hc; exact absurd hc (by simp)
  | succ g ih =>
    intro f2 id h hc hle
    obtain ⟨g2, rfl⟩ : ∃ g2, f2 = g2 + 1 := ⟨f2 - 1, by omega⟩
    rw [chase] at hc ⊢
    cases ha : antAt ants id with
    | one p =>
      simp only [ha] at hc ⊢
      exact ih g2 p h hc (by omega)
    | zero => simp only [ha] at hc ⊢; exact hc
    | many => simp only [ha] at hc ⊢; exact hc

theorem chase_not_one (ants : List (Option Antecedents)) :
    ∀ (f id h : Nat), chase ants f id = some h → (antAt ants h).isOne = false := by
  intro f
  induction f with
  | zero => intro id h hc; rw [chase] at hc; exact absurd hc (by simp)
  | succ g ih =>
    intro id h hc
    rw [chase] at hc
    cases ha : antAt ants id with
    | one p => simp only [ha] at hc; exact ih p h hc
    | zero =>
      simp only [ha, Option.some_inj] at hc
      subst hc
      rw [ha]
      rfl
    | many =>
      simp only [ha, Option.some_inj] at hc
      subst hc
      rw [ha]
      rfl

theorem chase_result_cases (ants : List (Option Antecedents)) :
    ∀ (f id h : Nat), chase ants f id = some h →
      h = id ∨ ∃ x, antAt ants x = .one h := by
  intro f
  induction f with
  | zero => intro id h hc; rw [chase] at hc; exact absurd hc (by simp)
  | succ g ih =>
    intro id h hc
    rw [chase] at hc
    cases ha : antAt ants id with
    | one p =>
      simp only [ha] at hc
      rcases ih p h hc with rfl | hx
      · exact Or.inr ⟨id, ha⟩
      · exact Or.inr hx
    | zero => simp only [ha, Option.some_inj] at hc; exact Or.inl hc.symm
    | many => simp only [ha, Option.some_inj] at hc; exact Or.inl hc.symm

theorem chase_of_not_one (ants : List (Option Antecedents)) (g id : Nat)
    (h : (antAt ants id).isOne = false) : chase ants (g + 1) id = some id := by
  rw [chase]
  cases ha : antAt ants id with
  | one p => rw [ha, Antecedents.isOne] at h; exact absurd h (by simp)
  | zero => simp
  | many => simp

theorem oneIter_add (ants : List (Option Antecedents)) :
    ∀ (k1 k2 x : Nat), oneIter ants (k1 + k2) x = (oneIter ants k1 x).bind (oneIter ants k2) := by
  intro k1
  induction k1 with
  | zero =>
    intro k2 x
    simp [oneIter]
  | succ k ih =>
    intro k2 x
    rw [show k + 1 + k2 = (k + k2) + 1 from by omega]
    rw [oneIter, oneIter]
    cases os : oneStep ants x with
    | none => simp
    | some y =>
      simp only [Option.some_bind]
      rw [ih k2 y]

theorem chase_through_path (ants : List (Option Antecedents)) :
    ∀ (k p p2 f h : Nat), oneIter ants k p = some p2 → chase ants f p = some h →
      ∃ f2, f = f2 + k ∧ chase ants f2 p2 = some h := by
  intro k
  induction k with
  | zero =>
    intro p p2 f h hiter hc
    rw [oneIter, Option.some_inj] at hiter
    subst hiter
    exact ⟨f, rfl, hc⟩
  | succ k ih =>
    intro p p2 f h hiter hc
    rw [oneIter] at hiter
    cases os : oneStep ants p with
    | none => rw [os] at hiter; exact absurd hiter (by simp)
    | some q =>
      rw [os] at hiter
      simp only [Option.some_bind] at hiter
      have ha : antAt ants p = .one q := by
        rw [oneStep] at os
        cases ha2 : antAt ants p with
        | one r => rw [ha2] at os; simp only [Option.some_inj] at os; rw [os]
        | zero => rw [ha2] at os; exact absurd os (by simp)
        | many => rw [ha2] at os; exact absurd os (by simp)
      obtain ⟨g, rfl⟩ : ∃ g, f = g + 1 := by
        cases f with
        | zero => rw [chase] at hc; exact absurd hc (by simp)
        | succ g => exact ⟨g, rfl⟩
      rw [chase] at hc
      simp only [ha] at hc
      obtain ⟨f2, hfeq, hc2⟩ := ih q p2 g h hiter hc
      exact ⟨f2, by omega, hc2⟩

theorem mergeLoop_none (ants : List (Option Antecedents)) (g : Nat) (b : Body) (id : Nat)
    (h : getBlock b id = none) : mergeLoop ants (g + 1) b id = some b := by
  rw [mergeLoop, h]

theorem mergeLoop_of_stopped (ants : List (Option Antecedents)) (g : Nat) (b : Body)
    (h : Nat) (hst : StoppedAt ants b h) : mergeLoop ants (g + 1) b h = some b := by
  cases hb : getBlock b h with
  | none => exact mergeLoop_none ants g b h hb
  | some src =>
    cases hc : src.terminator.content
    case goto t =>
      exact mergeLoop_stop_not_one ants g b h src t hb hc (hst src t hb hc)
    all_goals rw [mergeLoop_eq_of_getBlock ants g b h src hb, hc]

theorem blockCount_le_of_pointwise :
    ∀ (l1 l2 : List (Option BlockData)), l2.length = l1.length →
      (∀ j, l2.getD j none ≠ none → l1.getD j none ≠ none) →
      blockCount l2 ≤ blockCount l1 := by
  intro l1
  induction l1 with
  | nil =>
    intro l2 hlen _
    rw [List.length_nil] at hlen
    rw [List.eq_nil_of_length_eq_zero hlen]
  | cons a l1 ih =>
    intro l2 hlen hmono
    cases l2 with
    | nil => simp [blockCount]
    | cons b l2 =>
      rw [blockCount, blockCount, List.countP_cons, List.countP_cons]
      have htail : blockCount l2 ≤ blockCount l1 := by
        apply ih l2 (by simpa using hlen)
        intro j hj
        exact hmono (j + 1) (by simpa using hj)
      have hhead : (if b.isSome then 1 else 0) ≤ (if a.isSome then 1 else 0) := by
        cases b with
        | none => simp
        | some blkb =>
          have := hmono 0 (by simp [List.getD_cons_zero])
          rw [List.getD_cons_zero] at this
          cases a with
          | none => exact absurd rfl this
          | some blka => simp
      rw [blockCount, blockCount] at htail
      omega

theorem mem_predListFrom_iff (x : Nat) :
    ∀ (bs : Body) (i p : Nat),
      p ∈ predListFrom i bs x
        ↔ ∃ j blk, p = i + j ∧ bs.getD j none = some blk ∧ x ∈ blk.targets := by
  intro bs
  induction bs with
  | nil =>
    intro i p
    constructor
    · intro h; exact absurd h (by simp [predListFrom])
    · rintro ⟨j, blk, _, hg, _⟩
      rw [List.getD_eq_getElem?_getD] at hg
      simp at hg
  | cons ob rest ih =>
    intro i p
    cases ob with
    | none =>
      rw [predListFrom, ih (i + 1) p]
      constructor
      · rintro ⟨j, blk, hp, hg, hx⟩
        exact ⟨j + 1, blk, by omega, by simpa using hg, hx⟩
      · rintro ⟨j, blk, hp, hg, hx⟩
        cases j with
        | zero => rw [List.getD_cons_zero] at hg; exact absurd hg (by simp)
        | succ j2 => exact ⟨j2, blk, by omega, by simpa using hg, hx⟩
    | some blk0 =>
      rw [predListFrom, List.mem_append, List.mem_replicate, ih (i + 1) p]
      constructor
      · rintro (⟨hcnt, rfl⟩ | ⟨j, blk, hp, hg, hx⟩)
        · refine ⟨0, blk0, by omega, List.getD_cons_zero, ?_⟩
          by_contra hx
          exact hcnt (List.count_eq_zero.mpr hx)
        · exact ⟨j + 1, blk, by omega, by simpa using hg, hx⟩
      · rintro ⟨j, blk, hp, hg, hx⟩
        cases j with
        | zero =>
          rw [List.getD_cons_zero, Option.some_inj] at hg
          subst hg
          exact Or.inl ⟨fun hc0 => (List.count_eq_zero.mp hc0) hx, by omega⟩
        | succ j2 => exact Or.inr ⟨j2, blk, by omega, by simpa using hg, hx⟩

theorem edgeIn_iff_mem_predList (b : Body) (s x : Nat) :
    s ∈ predList b x ↔ edgeIn b s x := by
  rw [predList, mem_predListFrom_iff]
  constructor
  · rintro ⟨j, blk, hp, hg, hx⟩
    refine ⟨blk, ?_, hx⟩
    rw [getBlock, show s = j from by omega]
    exact hg
  · rintro ⟨blk, hg, hx⟩
    exact ⟨s, blk, by omega, hg, hx⟩

theorem antAt_isOne_exists {ants : List (Option Antecedents)} {x : Nat}
    (h : (antAt ants x).isOne = true) : ∃ p, antAt ants x = .one p := by
  cases ha : antAt ants x with
  | one p => exact ⟨p, rfl⟩
  | zero => rw [ha] at h; exact absurd h (by decide)
  | many => rw [ha] at h; exact absurd h (by decide)

theorem contractionInv_refl (body0 : Body) : ContractionInv body0 body0 := by
  refine ⟨rfl, ?_, ?_, ?_⟩
  · intro j hj; exact ⟨hj, rfl⟩
  · intro j hj; exact Or.inl hj
  · intro s x hx; exact ⟨s, 0, hx, rfl⟩

theorem contractionInv_merge_step {body0 b : Body} {h t : Nat} {src tgt : BlockData}
    (hinv : ContractionInv body0 b)
    (hsrc : getBlock b h = some src)
    (hgoto : src.terminator.content = .goto t)
    (hone : (antAt (computeAntecedents body0) t).isOne = true)
    (htgt : getBlock b t = some tgt)
    (hne : t ≠ h) :
    ContractionInv body0 ((b.set t none).set h
      (some ⟨src.statements ++ tgt.statements, tgt.terminator⟩)) := by
  obtain ⟨hlen, hpres, hhole, hedge⟩ := hinv
  have hhlt : h < b.length := getBlock_lt_length hsrc
  have htlt : t < b.length := getBlock_lt_length htgt
  have hone2 := (isOne_antAt_iff body0 t).mp hone
  have hb2h : getBlock ((b.set t none).set h
      (some ⟨src.statements ++ tgt.statements, tgt.terminator⟩)) h
      = some ⟨src.statements ++ tgt.statements, tgt.terminator⟩ :=
    getBlock_set_self _ (by rw [List.length_set]; exact hhlt)
  have hb2t : getBlock ((b.set t none).set h
      (some ⟨src.statements ++ tgt.statements, tgt.terminator⟩)) t = none := by
    rw [getBlock_set_ne _ (Ne.symm hne)]
    exact getBlock_set_self none htlt
  refine ⟨?_, ?_, ?_, ?_⟩
  · rw [List.length_set, List.length_set]; exact hlen
  · intro j hj
    by_cases hjt : j = t
    · subst hjt; exact absurd hb2t hj
    · have hcount := predCount_merge_step hsrc hgoto htgt hne j
      rw [if_neg hjt] at hcount
      by_cases hjh : j = h
      · have hp := hpres j (by rw [hjh, hsrc]; simp)
        exact ⟨hp.1, by omega⟩
      · have hbj : getBlock ((b.set t none).set h
            (some ⟨src.statements ++ tgt.statements, tgt.terminator⟩)) j = getBlock b j := by
          rw [getBlock_set_ne _ (Ne.symm hjh), getBlock_set_ne _ (Ne.symm hjt)]
        rw [hbj] at hj
        have hp := hpres j hj
        exact ⟨hp.1, by omega⟩
  · intro j hj
    by_cases hjt : j = t
    · subst hjt; exact Or.inr hone2.2
    · by_cases hjh : j = h
      · rw [hjh, hb2h] at hj; exact absurd hj (by simp)
      · have hbj : getBlock ((b.set t none).set h
            (some ⟨src.statements ++ tgt.statements, tgt.terminator⟩)) j = getBlock b j := by
          rw [getBlock_set_ne _ (Ne.symm hjh), getBlock_set_ne _ (Ne.symm hjt)]
        rw [hbj] at hj
        exact hhole j hj
  · intro s x hx
    obtain ⟨blk, hbs, hxt⟩ := hx
    by_cases hst : s = t
    · subst hst; rw [hb2t] at hbs; exact absurd hbs (by simp)
    · by_cases hsh : s = h
      · rw [hsh, hb2h, Option.some_inj] at hbs
        subst hbs
        have hxt2 : x ∈ tgt.targets := hxt
        have hedge_tx : edgeIn b t x := ⟨tgt, htgt, hxt2⟩
        obtain ⟨s0, k, he0, hit⟩ := hedge t x hedge_tx
        have hedge_ht : edgeIn b h t := by
          refine ⟨src, hsrc, ?_⟩
          rw [BlockData.targets, hgoto]
          simp [RawTerminator.targets]
        obtain ⟨s0q, kq, he0q, hitq⟩ := hedge h t hedge_ht
        obtain ⟨p, hp⟩ := antAt_isOne_exists hone
        have hpl := (antAt_eq_one_iff body0 t p).mp hp
        have hs0q : s0q = p := by
          have hmem := (edgeIn_iff_mem_predList body0 s0q t).mpr he0q
          rw [hpl.2] at hmem
          simpa using hmem
        rw [hs0q] at hitq
        refine ⟨s0, k + (1 + kq), he0, ?_⟩
        rw [hsh, oneIter_add _ k (1 + kq) s0, hit]
        simp only [Option.some_bind]
        rw [oneIter_add _ 1 kq t]
        have h1step : oneIter (computeAntecedents body0) 1 t = some p := by
          simp [oneIter, oneStep, hp]
        rw [h1step]
        simp only [Option.some_bind]
        exact hitq
      · have hbj : getBlock ((b.set t none).set h
            (some ⟨src.statements ++ tgt.statements, tgt.terminator⟩)) s = getBlock b s := by
          rw [getBlock_set_ne _ (Ne.symm hsh), getBlock_set_ne _ (Ne.symm hst)]
        rw [hbj] at hbs
        exact hedge s x ⟨blk, hbs, hxt⟩

theorem mergeLoop_inv {body0 : Body} :
    ∀ (fuel : Nat) (b : Body) (h : Nat) (b2 : Body),
      mergeLoop (computeAntecedents body0) fuel b h = some b2 →
      ContractionInv body0 b →
      ContractionInv body0 b2
      ∧ (∀ j, j ≠ h → (antAt (computeAntecedents body0) j).isOne = false →
          getBlock b2 j = getBlock b j)
      ∧ StoppedAt (computeAntecedents body0) b2 h := by
  intro fuel
  induction fuel with
  | zero => intro b h b2 hm _; rw [mergeLoop] at hm; exact absurd hm (by simp)
  | succ g ih =>
    intro b h b2 hm hinv
    cases hb : getBlock b h with
    | none =>
      rw [mergeLoop_none _ g b h hb] at hm
      obtain rfl : b = b2 := by simpa using hm
      refine ⟨hinv, fun j _ _ => rfl, ?_⟩
      intro src t hsrc _
      rw [hb] at hsrc
      exact absurd hsrc (by simp)
    | some src =>
      cases hc : src.terminator.content
      case goto t =>
        cases hone : (antAt (computeAntecedents body0) t).isOne
        case false =>
          rw [mergeLoop_stop_not_one _ g b h src t hb hc hone] at hm
          obtain rfl : b = b2 := by simpa using hm
          refine ⟨hinv, fun j _ _ => rfl, ?_⟩
          intro src' t' hsrc' hgoto'
          rw [hb, Option.some_inj] at hsrc'
          subst hsrc'
          rw [hc] at hgoto'
          injection hgoto' with ht
          subst ht
          exact hone
        case true =>
          cases htb : getBlock b t with
          | none =>
            rw [mergeLoop_goto_step _ g b h src t hb hc, if_pos hone, htb] at hm
            simp at hm
          | some tgt =>
            by_cases hth : t = h
            · rw [mergeLoop_goto_step _ g b h src t hb hc, if_pos hone, htb] at hm
              simp [hth] at hm
            · rw [mergeLoop_merge_step _ g b h src t tgt hb hc hone htb hth] at hm
              have hinv2 := contractionInv_merge_step hinv hb hc hone htb hth
              obtain ⟨hi, hframe, hstop⟩ := ih _ h b2 hm hinv2
              refine ⟨hi, ?_, hstop⟩
              intro j hjh hj1
              rw [hframe j hjh hj1]
              have hjt : j ≠ t := by
                intro he
                rw [he, hone] at hj1
                exact absurd hj1 (by simp)
              rw [getBlock_set_ne _ (Ne.symm hjh), getBlock_set_ne _ (Ne.symm hjt)]
      all_goals
        rw [mergeLoop_eq_of_getBlock _ g b h src hb, hc] at hm
      all_goals
        obtain rfl : b = b2 := by simpa using hm
      all_goals
        refine ⟨hinv, fun j _ _ => rfl, ?_⟩
      all_goals
        intro src' t' hsrc' hgoto'
      all_goals
        rw [hb, Option.some_inj] at hsrc'
      all_goals
        subst hsrc'
      all_goals
        rw [hc] at hgoto'
      all_goals
        exact absurd hgoto' (by simp)

theorem processIds_cons_elim {ants : List (Option Antecedents)} {f id : Nat}
    {rest : List Nat} {b out : Body}
    (hp : processIds ants f (id :: rest) b = some out) :
    ∃ head bmid, chase ants f id = some head ∧ mergeLoop ants f b head = some bmid
      ∧ processIds ants f rest bmid = some out := by
  cases hc : chase ants f id with
  | none => simp only [processIds, hc] at hp; exact absurd hp (by simp)
  | some head =>
    cases hm : mergeLoop ants f b head with
    | none => simp only [processIds, hc, hm] at hp; exact absurd hp (by simp)
    | some bmid =>
      simp only [processIds, hc, hm] at hp
      exact ⟨head, bmid, rfl, hm, hp⟩

theorem processIds_chase_some {ants : List (Option Antecedents)} {f : Nat} :
    ∀ {ids : List Nat} {b out : Body},
      processIds ants f ids b = some out →
      ∀ id ∈ ids, ∃ head, chase ants f id = some head := by
  intro ids
  induction ids with
  | nil => intro b out _ id hid; exact absurd hid (by simp)
  | cons i rest ih =>
    intro b out hp id hid
    obtain ⟨head, bmid, hc, hm, hrest⟩ := processIds_cons_elim hp
    rcases List.mem_cons.mp hid with rfl | hid2
    · exact ⟨head, hc⟩
    · exact ih hrest id hid2

theorem processIds_inv {body0 : Body} {f : Nat} :
    ∀ {ids : List Nat} {b out : Body},
      processIds (computeAntecedents body0) f ids b = some out →
      ContractionInv body0 b →
      ContractionInv body0 out
      ∧ (∀ id ∈ ids, ∀ head, chase (computeAntecedents body0) f id = some head →
          StoppedAt (computeAntecedents body0) out head)
      ∧ (∀ h2, (antAt (computeAntecedents body0) h2).isOne = false →
          StoppedAt (computeAntecedents body0) b h2 →
          StoppedAt (computeAntecedents body0) out h2) := by
  intro ids
  induction ids with
  | nil =>
    intro b out hp hinv
    rw [processIds] at hp
    obtain rfl : b = out := by simpa using hp
    exact ⟨hinv, fun id hid => absurd hid (by simp), fun h2 _ hs => hs⟩
  | cons i rest ih =>
    intro b out hp hinv
    obtain ⟨head, bmid, hc, hm, hrest⟩ := processIds_cons_elim hp
    obtain ⟨hinvmid, hframe, hstopmid⟩ := mergeLoop_inv f b head bmid hm hinv
    obtain ⟨hinvout, hstops, hpresv⟩ := ih hrest hinvmid
    have hheadone : (antAt (computeAntecedents body0) head).isOne = false :=
      chase_not_one _ f i head hc
    refine ⟨hinvout, ?_, ?_⟩
    · intro id hid head' hc'
      rcases List.mem_cons.mp hid with rfl | hid2
      · have hhe : head' = head := by
          rw [hc, Option.some_inj] at hc'
          exact hc'.symm
        rw [hhe]
        exact hpresv head hheadone hstopmid
      · exact hstops id hid2 head' hc'
    · intro h2 h2one hs
      apply hpresv h2 h2one
      by_cases hh : h2 = head
      · rw [hh]; exact hstopmid
      · intro src t hsrc hg
        rw [hframe h2 hh h2one] at hsrc
        exact hs src t hsrc hg

theorem oneStep_lift {body0 out : Body} (hinv : ContractionInv body0 out)
    {x p : Nat} (hs : oneStep (computeAntecedents out) x = some p) :
    ∃ k, 1 ≤ k ∧ oneIter (computeAntecedents body0) k x = some p := by
  obtain ⟨hlen, hpres, hhole, hedge⟩ := hinv
  have ha2 : antAt (computeAntecedents out) x = .one p := by
    rw [oneStep] at hs
    cases ha : antAt (computeAntecedents out) x with
    | one q =>
      rw [ha] at hs
      simp only [Option.some_inj] at hs
      rw [hs]
    | zero => rw [ha] at hs; exact absurd hs (by simp)
    | many => rw [ha] at hs; exact absurd hs (by simp)
  have h1 := (antAt_eq_one_iff out x p).mp ha2
  have hxpres : getBlock out x ≠ none := Option.isSome_iff_ne_none.mp h1.1
  have hp2 := hpres x hxpres
  have hcount : predCount body0 x = 1 := by
    have hco : predCount out x = 1 := by rw [predCount, h1.2]; rfl
    omega
  have hone : (antAt (computeAntecedents body0) x).isOne = true :=
    (isOne_antAt_iff body0 x).mpr ⟨Option.isSome_iff_ne_none.mpr hp2.1, hcount⟩
  obtain ⟨p0, hp0⟩ := antAt_isOne_exists hone
  have hpl0 := (antAt_eq_one_iff body0 x p0).mp hp0
  have hedge_px : edgeIn out p x := by
    rw [← edgeIn_iff_mem_predList, h1.2]
    simp
  obtain ⟨s0, k, he0, hit⟩ := hedge p x hedge_px
  have hs0 : s0 = p0 := by
    have hmem := (edgeIn_iff_mem_predList body0 s0 x).mpr he0
    rw [hpl0.2] at hmem
    simpa using hmem
  rw [hs0] at hit
  refine ⟨k + 1, by omega, ?_⟩
  rw [show k + 1 = 1 + k from by omega, oneIter_add]
  have h1step : oneIter (computeAntecedents body0) 1 x = some p0 := by
    simp [oneIter, oneStep, hp0]
  rw [h1step]
  simpa using hit

theorem chase_lift {body0 out : Body} (hinv : ContractionInv body0 out) :
    ∀ (f id head0 : Nat), chase (computeAntecedents body0) f id = some head0 →
      ∃ h2, chase (computeAntecedents out) f id = some h2 := by
  intro f
  induction f using Nat.strong_induction_on with
  | _ f ih =>
    intro id head0 hc
    cases f with
    | zero => rw [chase] at hc; exact absurd hc (by simp)
    | succ g =>
      cases ha2 : antAt (computeAntecedents out) id with
      | one p =>
        have hs : oneStep (computeAntecedents out) id = some p := by
          simp [oneStep, ha2]
        obtain ⟨k, hk1, hit⟩ := oneStep_lift hinv hs
        obtain ⟨f2, hfk, hc2⟩ := chase_through_path _ k id p (g + 1) head0 hit hc
        obtain ⟨h2, hh2⟩ := ih f2 (by omega) p head0 hc2
        refine ⟨h2, ?_⟩
        rw [chase]
        simp only [ha2]
        exact chase_mono _ f2 g p h2 hh2 (by omega)
      | zero => exact ⟨id, chase_of_not_one _ g id (by rw [ha2]; rfl)⟩
      | many => exact ⟨id, chase_of_not_one _ g id (by rw [ha2]; rfl)⟩

theorem stoppedAt_run2 {body0 out : Body} (hinv : ContractionInv body0 out) (f : Nat)
    (hstops : ∀ id head, id < body0.length →
      chase (computeAntecedents body0) f id = some head →
      StoppedAt (computeAntecedents body0) out head)
    (hf : 1 ≤ f) {h2 : Nat}
    (hh2 : (antAt (computeAntecedents out) h2).isOne = false) :
    StoppedAt (computeAntecedents out) out h2 := by
  intro src t2 hsrc hgoto
  by_contra hone2ne
  have hone2 : (antAt (computeAntecedents out) t2).isOne = true := by
    cases hb : (antAt (computeAntecedents out) t2).isOne
    · exact absurd hb hone2ne
    · rfl
  obtain ⟨hlen, hpres, hhole, hedge⟩ := hinv
  have ht2 := (isOne_antAt_iff out t2).mp hone2
  have ht2pres : getBlock out t2 ≠ none := Option.isSome_iff_ne_none.mp ht2.1
  have hp2 := hpres t2 ht2pres
  have hone1 : (antAt (computeAntecedents body0) t2).isOne = true :=
    (isOne_antAt_iff body0 t2).mpr ⟨Option.isSome_iff_ne_none.mpr hp2.1, by omega⟩
  have hh2pres : getBlock out h2 ≠ none := by rw [hsrc]; simp
  have hph2 := hpres h2 hh2pres
  have hh1 : (antAt (computeAntecedents body0) h2).isOne = false := by
    cases hb : (antAt (computeAntecedents body0) h2).isOne
    · rfl
    · have hbb := (isOne_antAt_iff body0 h2).mp hb
      have hq : (antAt (computeAntecedents out) h2).isOne = true :=
        (isOne_antAt_iff out h2).mpr ⟨by rw [hsrc]; rfl, by omega⟩
      rw [hq] at hh2
      exact absurd hh2 (by simp)
  have hh2lt : h2 < body0.length := by
    have h3 := getBlock_lt_length hsrc
    omega
  obtain ⟨g, rfl⟩ : ∃ g, f = g + 1 := ⟨f - 1, by omega⟩
  have hchase : chase (computeAntecedents body0) (g + 1) h2 = some h2 :=
    chase_of_not_one _ g h2 hh1
  have hstop := hstops h2 h2 hh2lt hchase
  have hfin := hstop src t2 hsrc hgoto
  rw [hfin] at hone1
  exact absurd hone1 (by simp)

/-- C3.  Goto-chain contraction is idempotent and non-increasing: whenever the
pass terminates on a body (the fueled embedding returns a result), running the
pass again on the output (with the same fuel) terminates and returns the
output unchanged, and the number of present blocks of the output is at most
that of the input. -/
theorem c3_contraction_idempotent_nonincreasing (f : Nat) (body out : Body)
    (hrun : mergeGotoChains f body = some out) :
    mergeGotoChains f out = some out ∧ blockCount out ≤ blockCount body := by
  rw [mergeGotoChains] at hrun
  obtain ⟨hinvout, hstops, -⟩ := processIds_inv hrun (contractionInv_refl body)
  have hlen : out.length = body.length := hinvout.1
  constructor
  · rw [mergeGotoChains]
    apply processIds_noop
    intro id hid
    have hidlt : id < out.length := List.mem_range.mp hid
    have hidlt0 : id < body.length := by omega
    obtain ⟨head0, hch0⟩ :=
      processIds_chase_some hrun id (List.mem_range.mpr hidlt0)
    have hf1 : 1 ≤ f := by
      cases f with
      | zero => rw [chase] at hch0; exact absurd hch0 (by simp)
      | succ g => omega
    obtain ⟨h2, hh2⟩ := chase_lift hinvout f id head0 hch0
    refine ⟨h2, hh2, ?_⟩
    have hh2one : (antAt (computeAntecedents out) h2).isOne = false :=
      chase_not_one _ f id h2 hh2
    have hstop2 : StoppedAt (computeAntecedents out) out h2 :=
      stoppedAt_run2 hinvout f
        (fun i head hilt hc => hstops i (List.mem_range.mpr hilt) head hc) hf1 hh2one
    obtain ⟨g, rfl⟩ : ∃ g, f = g + 1 := ⟨f - 1, by omega⟩
    exact mergeLoop_of_stopped _ g out h2 hstop2
  · exact blockCount_le_of_pointwise body out hlen (fun j hj => (hinvout.2.1 j hj).1)

theorem c3_witness :
    mergeGotoChains 4 chainBody3
        = some [some ⟨[], ⟨2, RawTerminator.ret⟩⟩, none, none]
    ∧ (mergeGotoChains 4 [some ⟨[], ⟨2, RawTerminator.ret⟩⟩, none, none]
        = some [some ⟨[], ⟨2, RawTerminator.ret⟩⟩, none, none]
      ∧ blockCount [some ⟨[], ⟨2, RawTerminator.ret⟩⟩, none, none]
          ≤ blockCount chainBody3) :=
  ⟨rfl, c3_contraction_idempotent_nonincreasing 4 chainBody3 _ rfl⟩
